import Mathlib

/-!
Verification development for the NetScan repository.

The definitions below are a shallow embedding of the core of the
repository: the async scanner (src/helpers/async_scanner.py) and the
monitor (src/helpers/monitor.py).  Machine integers are modelled as
`Nat`, SQLite tables as association lists, wall-clock timestamps as
`Nat` ticks, and Python exceptions as `Except`.  Floating point
quantities of the source (probe timeouts, response times) are never
consulted by any of the properties below and are omitted from the
embedding.
-/

namespace NetScan

/-! ### Python str.lower, restricted to the ASCII range

`DeviceDatabase` lowercases every MAC argument via Python's
`str.lower()`.  MAC strings are hex digits and separators, so the
ASCII mapping `Char.toLower` is a faithful model. -/

/-- Embedding of Python `str.lower()` (ASCII range). -/
def strLower (s : String) : String :=
  ⟨s.data.map Char.toLower⟩

theorem char_toNat_ofNat {n : Nat} (h : n.isValidChar) : (Char.ofNat n).toNat = n := by
  rw [Char.ofNat, dif_pos h]
  rfl

theorem char_toLower_idem (c : Char) : c.toLower.toLower = c.toLower := by
  unfold Char.toLower
  by_cases h : c.toNat ≥ 65 ∧ c.toNat ≤ 90
  · rw [if_pos h]
    have hv : (c.toNat + 32).isValidChar := Or.inl (by omega)
    rw [if_neg]
    rw [char_toNat_ofNat hv]
    omega
  · rw [if_neg h, if_neg h]

theorem strLower_idem (s : String) : strLower (strLower s) = strLower s := by
  unfold strLower
  simp only [List.map_map]
  congr 1
  apply List.map_congr_left
  intro c _
  exact char_toLower_idem c

/-! ### Target Enumerator (src/helpers/async_scanner.py, expand_cidr / expand_range)

`ipaddress.ip_address` and `ipaddress.ip_network(cidr, strict=False)`
are modelled for both address families, mirroring CPython's parsers:
IPv4 dotted quads via `_parse_octet` (digits only, at most three of
them, no leading zero, at most 255), IPv6 literals via
`IPv6Address._ip_int_from_string` (colon-separated hextets, at most one
`::`, optional embedded IPv4 in the last group, optional non-empty
`%zone` suffix for addresses), and network masks via `_make_netmask`
(decimal prefix for both families; dotted-quad netmask or hostmask
forms for IPv4 only).  A failed parse models the `ValueError` that the
`except` clause of the source catches; the integer value of an address
is `int(addr)` and text output mirrors `str(ip_address(n))`, including
RFC 5952 zero-run compression for IPv6. -/

/-- Numeric value of a digit string. -/
def digitsVal (l : List Char) : Nat :=
  l.foldl (fun a c => a * 10 + (c.toNat - 48)) 0

/-- Python `str.split(sep)` on a single-character separator
(accumulator form, structural recursion). -/
def splitCharAux (sep : Char) : List Char → List Char → List (List Char)
  | [], cur => [cur.reverse]
  | c :: rest, cur =>
    if c = sep then cur.reverse :: splitCharAux sep rest []
    else splitCharAux sep rest (c :: cur)

/-- Python `str.split(sep)` on a single-character separator. -/
def splitChar (sep : Char) (l : List Char) : List (List Char) :=
  splitCharAux sep l []

/-- One dotted-quad octet, mirroring CPython `_parse_octet`: digits
only, at most three of them, no leading zero, at most 255. -/
def parseOctet (l : List Char) : Option Nat :=
  if l ≠ [] ∧ l.all Char.isDigit ∧ l.length ≤ 3 ∧ ¬(l.length > 1 ∧ l.head? = some '0') then
    let v := digitsVal l
    if v ≤ 255 then some v else none
  else none

/-- Parse an IPv4 address string to its 32-bit value, mirroring
CPython `IPv4Address._ip_int_from_string`. -/
def parseIPv4 (s : String) : Option Nat :=
  match splitChar '.' s.data with
  | [a, b, c, d] => do
    let va ← parseOctet a
    let vb ← parseOctet b
    let vc ← parseOctet c
    let vd ← parseOctet d
    some (((va * 256 + vb) * 256 + vc) * 256 + vd)
  | _ => none

/-- Hex digit test (CPython `_HEX_DIGITS`). -/
def isHexDigitChar (c : Char) : Bool :=
  c.isDigit || (97 ≤ c.toNat && c.toNat ≤ 102) || (65 ≤ c.toNat && c.toNat ≤ 70)

/-- Value of one hex digit. -/
def hexDigitVal (c : Char) : Nat :=
  if c.isDigit then c.toNat - 48
  else if c.toNat ≥ 97 then c.toNat - 87
  else c.toNat - 55

/-- Numeric value of a hex string (`int(s, 16)`). -/
def hexVal (l : List Char) : Nat :=
  l.foldl (fun a c => a * 16 + hexDigitVal c) 0

/-- One colon-separated group of an IPv6 literal: either raw text or,
after the embedded-IPv4 replacement step, an already-numeric 16-bit
group. -/
inductive Hextet where
  | txt (l : List Char)
  | num (v : Nat)
deriving DecidableEq, Repr

/-- The empty-group test of `_ip_int_from_string` (`if not parts[i]`). -/
def hextetEmpty : Hextet → Bool
  | Hextet.txt [] => true
  | _ => false

/-- Embedding of CPython `_parse_hextet`: hex digits only, at most four
of them. -/
def parseHextet : Hextet → Option Nat
  | Hextet.num v => some v
  | Hextet.txt l =>
    if l ≠ [] ∧ l.all isHexDigitChar ∧ l.length ≤ 4 then some (hexVal l) else none

/-- The embedded-IPv4 step of `_ip_int_from_string`: a dot in the last
group makes it parse as IPv4 and become two 16-bit groups. -/
def replaceV4 (parts : List (List Char)) : Option (List Hextet) :=
  match parts.getLast? with
  | none => none
  | some lp =>
    if lp.contains '.' then
      match parseIPv4 ⟨lp⟩ with
      | none => none
      | some v =>
        some ((parts.dropLast).map Hextet.txt ++
          [Hextet.num (v / 65536), Hextet.num (v % 65536)])
    else some (parts.map Hextet.txt)

/-- Fold parsed 16-bit groups into an integer, most significant first. -/
def hextetsVal (l : List Hextet) : Option Nat :=
  (l.mapM parseHextet).map (fun vs => vs.foldl (fun a v => a * 65536 + v) 0)

/-- The core of CPython `IPv6Address._ip_int_from_string` after the
colon split and embedded-IPv4 replacement: locate the unique interior
empty group (the `::`), validate leading/trailing colons and group
counts, and assemble the 128-bit value. -/
def parseIPv6Parts (parts : List Hextet) : Option Nat :=
  let n := parts.length
  if n > 9 then none
  else
    let interior := (List.range n).filter
      (fun i => decide (0 < i) && decide (i + 1 < n) &&
        hextetEmpty (parts.getD i (Hextet.num 0)))
    match interior with
    | [] =>
      if n = 8 ∧ hextetEmpty (parts.getD 0 (Hextet.num 0)) = false ∧
          hextetEmpty (parts.getD 7 (Hextet.num 0)) = false then
        hextetsVal parts
      else none
    | [i] =>
      let firstE := hextetEmpty (parts.getD 0 (Hextet.num 0))
      let lastE := hextetEmpty (parts.getD (n - 1) (Hextet.num 0))
      if firstE ∧ i ≠ 1 then none
      else if lastE ∧ n - i - 1 ≠ 1 then none
      else
        let hi := if firstE then 0 else i
        let lo := if lastE then 0 else n - i - 1
        if hi + lo > 7 then none
        else
          let skipped := 8 - (hi + lo)
          match hextetsVal (parts.take hi), hextetsVal (parts.drop (n - lo)) with
          | some vhi, some vlo => some (vhi * 2 ^ (16 * (skipped + lo)) + vlo)
          | _, _ => none
    | _ => none

/-- Embedding of CPython `IPv6Address._ip_int_from_string` on the bare
address text (no zone): non-empty, at least three colon groups. -/
def parseIPv6Core (s : List Char) : Option Nat :=
  if s = [] then none
  else
    let parts0 := splitChar ':' s
    if parts0.length < 3 then none
    else
      match replaceV4 parts0 with
      | none => none
      | some parts => parseIPv6Parts parts

/-- An IPv6 literal with CPython's optional scope id: at most one `%`,
and the zone after it must be non-empty. -/
def parseIPv6Zone (s : List Char) : Option Nat :=
  match splitChar '%' s with
  | [addr] => parseIPv6Core addr
  | [addr, zone] => if zone ≠ [] then parseIPv6Core addr else none
  | _ => none

/-- Embedding of `ipaddress.ip_address(str)`: IPv4 first, then IPv6
(with optional zone); the result is the address's integer value. -/
def parseAddr (s : String) : Option Nat :=
  match parseIPv4 s with
  | some v => some v
  | none => parseIPv6Zone s.data

/-- Parse a decimal prefix length of width `w`, mirroring CPython
`_prefix_from_prefix_string` (ASCII digits only, at most `w`). -/
def parsePrefixLenW (w : Nat) (l : List Char) : Option Nat :=
  if l ≠ [] ∧ l.all Char.isDigit then
    let v := digitsVal l
    if v ≤ w then some v else none
  else none

/-- Trailing zero bits of `v`, capped by the fuel (CPython
`_count_righthand_zero_bits` for non-zero values). -/
def ctzAux : Nat → Nat → Nat
  | 0, _ => 0
  | f + 1, v => if v % 2 = 1 then 0 else 1 + ctzAux f (v / 2)

/-- Embedding of CPython `_prefix_from_ip_int`: a `w`-bit mask that is
ones followed by zeros yields its prefix length, anything else fails. -/
def prefixFromMaskInt (w v : Nat) : Option Nat :=
  let t := if v = 0 then w else ctzAux w v
  let pl := w - t
  if v / 2 ^ t = 2 ^ pl - 1 then some pl else none

/-- Embedding of `IPv4Network._make_netmask` on a string argument:
a decimal prefix, else a dotted-quad netmask, else a hostmask. -/
def parseV4Mask (l : List Char) : Option Nat :=
  match parsePrefixLenW 32 l with
  | some p => some p
  | none =>
    match parseIPv4 ⟨l⟩ with
    | some v =>
      match prefixFromMaskInt 32 v with
      | some p => some p
      | none => prefixFromMaskInt 32 (v ^^^ (2 ^ 32 - 1))
    | none => none

/-- A parsed network: family, address value, prefix length. -/
inductive IpNet where
  | v4 (addr : Nat) (plen : Nat)
  | v6 (addr : Nat) (plen : Nat)
deriving DecidableEq, Repr

/-- Embedding of `IPv4Network(s, strict=False)`: one optional `/`, an
IPv4 address, and a prefix/netmask/hostmask (default /32). -/
def parseIPv4Network (s : String) : Option IpNet :=
  match splitChar '/' s.data with
  | [addr] => (parseIPv4 ⟨addr⟩).map (fun a => IpNet.v4 a 32)
  | [addr, mask] => do
    let a ← parseIPv4 ⟨addr⟩
    let p ← parseV4Mask mask
    some (IpNet.v4 a p)
  | _ => none

/-- Embedding of `IPv6Network(s, strict=False)`: one optional `/`, an
IPv6 address (zone permitted), and a decimal prefix only (default
/128); IPv6 accepts no address-form netmask. -/
def parseIPv6Network (s : String) : Option IpNet :=
  match splitChar '/' s.data with
  | [addr] => (parseIPv6Zone addr).map (fun a => IpNet.v6 a 128)
  | [addr, mask] => do
    let a ← parseIPv6Zone addr
    let p ← parsePrefixLenW 128 mask
    some (IpNet.v6 a p)
  | _ => none

/-- Embedding of `ipaddress.ip_network(s, strict=False)`: IPv4Network
first, then IPv6Network; `none` models the `ValueError` when both
reject. -/
def parseNetwork (s : String) : Option IpNet :=
  match parseIPv4Network s with
  | some n => some n
  | none => parseIPv6Network s

/-- Network mask of a prefix length at width `w`. -/
def netMask (w p : Nat) : Nat := 2 ^ w - 2 ^ (w - p)

/-- Dotted-quad text form of a 32-bit address. -/
def ipToString (n : Nat) : String :=
  toString (n / 16777216 % 256) ++ "." ++ toString (n / 65536 % 256) ++ "." ++
    toString (n / 256 % 256) ++ "." ++ toString (n % 256)

/-- Lowercase hex digit character. -/
def hexDigitChar (d : Nat) : Char :=
  if d < 10 then Char.ofNat (48 + d) else Char.ofNat (87 + d)

/-- Minimal lowercase hex form of a 16-bit group (`'%x' % v`). -/
def natToHex16 (v : Nat) : List Char :=
  let ds := [hexDigitChar (v / 4096 % 16), hexDigitChar (v / 256 % 16),
             hexDigitChar (v / 16 % 16), hexDigitChar (v % 16)]
  match ds.dropWhile (fun c => c == '0') with
  | [] => ['0']
  | l => l

/-- The eight 16-bit groups of a 128-bit value, most significant
first. -/
def ipv6Hextets (n : Nat) : List Nat :=
  (List.range 8).map (fun i => n / 2 ^ (16 * (7 - i)) % 65536)

/-- The longest run of zero groups (leftmost on ties), as in CPython
`_compress_hextets`: returns (start, length). -/
def bestZeroRun (groups : List Nat) : Nat × Nat :=
  let f := fun (st : Nat × Nat × Nat × Nat × Nat) (g : Nat) =>
    let idx := st.1
    let curStart := st.2.1
    let curLen := st.2.2.1
    let bestStart := st.2.2.2.1
    let bestLen := st.2.2.2.2
    if g = 0 then
      let cs := if curLen = 0 then idx else curStart
      let cl := curLen + 1
      if cl > bestLen then (idx + 1, cs, cl, cs, cl)
      else (idx + 1, cs, cl, bestStart, bestLen)
    else (idx + 1, 0, 0, bestStart, bestLen)
  let r := groups.foldl f (0, 0, 0, 0, 0)
  (r.2.2.2.1, r.2.2.2.2)

/-- Join hextet texts with `:`. -/
def joinColon : List (List Char) → List Char
  | [] => []
  | p :: rest => rest.foldl (fun a q => a ++ ':' :: q) p

/-- Embedding of `str(IPv6Address(n))` (`_string_from_ip_int` with
`_compress_hextets`): lowercase groups, the longest zero run of length
at least two compressed to `::`. -/
def ipv6ToString (n : Nat) : String :=
  let groups := ipv6Hextets n
  let hx := groups.map natToHex16
  let br := bestZeroRun groups
  if br.2 > 1 then
    ⟨joinColon (hx.take br.1) ++ ':' :: ':' :: joinColon (hx.drop (br.1 + br.2))⟩
  else ⟨joinColon hx⟩

/-- Embedding of `str(ipaddress.ip_address(n))` for any integer value
below 2^128: dotted quad below 2^32, compressed IPv6 above. -/
def ipAnyToString (n : Nat) : String :=
  if n < 2 ^ 32 then ipToString n else ipv6ToString n

/-- Embedding of `AsyncScanner.expand_cidr`: on a parse failure the
source logs and returns `[]`; on success it enumerates
`network.hosts()` (`hosts_only`) or the whole network.  IPv4 `hosts()`
of a /31 or /32 yields every address, otherwise network and broadcast
are excluded; IPv6 `hosts()` of a /127 or /128 yields every address,
otherwise only the network address is excluded. -/
def expandCidr (cidr : String) (hostsOnly : Bool) : List String :=
  match parseNetwork cidr with
  | none => []
  | some (IpNet.v4 a p) =>
    let base := a &&& netMask 32 p
    let size := 2 ^ (32 - p)
    if hostsOnly then
      if p ≥ 31 then (List.range size).map (fun i => ipToString (base + i))
      else (List.range (size - 2)).map (fun i => ipToString (base + 1 + i))
    else (List.range size).map (fun i => ipToString (base + i))
  | some (IpNet.v6 a p) =>
    let base := a &&& netMask 128 p
    let size := 2 ^ (128 - p)
    if hostsOnly then
      if p ≥ 127 then (List.range size).map (fun i => ipv6ToString (base + i))
      else (List.range (size - 1)).map (fun i => ipv6ToString (base + 1 + i))
    else (List.range size).map (fun i => ipv6ToString (base + i))

/-- Embedding of `AsyncScanner.expand_range`: on a parse failure of
either endpoint the source logs and returns `[]`; on success it
enumerates the inclusive ascending integer range
`int(start) .. int(end)` regardless of address family (empty when
start exceeds end), formatting each value per its family. -/
def expandRange (startIp endIp : String) : List String :=
  match parseAddr startIp, parseAddr endIp with
  | some s, some e => (List.range (e + 1 - s)).map (fun i => ipAnyToString (s + i))
  | _, _ => []

/-! ### Probe Executor scheduling (src/helpers/async_scanner.py, ping_host / ping_sweep)

`ping_sweep` creates `asyncio.Semaphore(self.max_concurrent)` and
schedules one `ping_host` task per target; each task runs its probe
inside `async with self.semaphore`.  The embedding is a small-step
scheduler over the batch: a probe may start only when fewer than
`max_concurrent` probes hold the semaphore, and finishing a probe
releases it.  Any interleaving the event loop could produce is a trace
of this relation. -/

/-- Configuration fields of `AsyncScanner.__init__` (the float-valued
`timeout` is never consulted here and is omitted). -/
structure AsyncScanner where
  max_concurrent : Nat := 100
  vendor_lookup : Bool := true
  verbose : Bool := false
deriving DecidableEq, Repr

inductive TaskPhase where
  | pending
  | running
  | done
deriving DecidableEq, Repr

inductive SchedAct where
  | start (i : Nat)
  | finish (i : Nat)
deriving DecidableEq, Repr

/-- Number of probes currently holding the semaphore. -/
def inFlight (ts : List TaskPhase) : Nat :=
  ts.countP (fun t => t == TaskPhase.running)

/-- One scheduler step: `start i` is the semaphore acquire of task `i`
(enabled only below the concurrency bound), `finish i` its release. -/
def schedStep (n : Nat) (ts : List TaskPhase) (a : SchedAct) : Option (List TaskPhase) :=
  match a with
  | SchedAct.start i =>
    if ts.get? i = some TaskPhase.pending ∧ inFlight ts < n then
      some (ts.set i TaskPhase.running)
    else none
  | SchedAct.finish i =>
    if ts.get? i = some TaskPhase.running then some (ts.set i TaskPhase.done) else none

/-- Run a scheduler trace. -/
def schedRun (n : Nat) (ts : List TaskPhase) : List SchedAct → Option (List TaskPhase)
  | [] => some ts
  | a :: rest =>
    match schedStep n ts a with
    | some ts2 => schedRun n ts2 rest
    | none => none

/-- The batch `ping_sweep` schedules: one pending probe per target. -/
def pingSweepInit (targets : List String) : List TaskPhase :=
  targets.map (fun _ => TaskPhase.pending)

/-! ### Device Store (src/helpers/monitor.py, DeviceDatabase)

The SQLite `devices` table is an association list keyed by the
lowercased MAC; `device_history` is an append-only list.  SQLite `NULL`
and the empty string are conflated as `""` (the source itself treats
empty text fields as falsy).  Wall-clock timestamps
(`datetime.now().isoformat()`) are `Nat` ticks supplied by the caller. -/

/-- A row of the `devices` table. -/
structure DeviceRec where
  ip : String
  hostname : String
  vendor : String
  first_seen : Nat
  last_seen : Nat
  is_known : Bool
  is_trusted : Bool
  notes : String
  custom_name : String
deriving DecidableEq, Repr

/-- The ephemeral `Device` dataclass of async_scanner.py; the fields the
monitor's change-detection path reads.  (`status`, `response_time`,
`discovery_method`, the per-pass timestamps, `ports` and `os_guess` are
never consulted by the embedded operations.) -/
structure Device where
  ip : String
  mac : String
  hostname : String
  vendor : String
deriving DecidableEq, Repr

/-- A row of the `device_history` table. -/
structure HistEvent where
  mac : String
  ip : String
  event_type : String
  timestamp : Nat
  details : String
deriving DecidableEq, Repr

/-- The `devices` table. -/
abbrev Db := List (String × DeviceRec)

/-- Embedding of `DeviceDatabase.get_device`: SELECT by the lowercased MAC. -/
def getDevice (db : Db) (mac : String) : Option DeviceRec :=
  db.lookup (strLower mac)

/-- SQL `UPDATE devices ... WHERE mac = key`: rewrite the row with that
primary key, leaving every other row unchanged. -/
def dbSet (db : Db) (key : String) (r : DeviceRec) : Db :=
  db.map (fun p => if p.1 = key then (key, r) else p)

/-- The row `upsert_device` UPDATEs onto an existing record: `ip` and
`last_seen` are overwritten unconditionally, `hostname` and `vendor`
only by a non-empty value (`COALESCE(? , old)` with `value or None`). -/
def updRec (r : DeviceRec) (d : Device) (now : Nat) : DeviceRec :=
  { r with ip := d.ip,
           hostname := if d.hostname = "" then r.hostname else d.hostname,
           vendor := if d.vendor = "" then r.vendor else d.vendor,
           last_seen := now }

/-- The row `upsert_device` INSERTs for a new MAC. -/
def freshRec (d : Device) (now : Nat) : DeviceRec :=
  { ip := d.ip, hostname := d.hostname, vendor := d.vendor,
    first_seen := now, last_seen := now, is_known := false,
    is_trusted := false, notes := "", custom_name := "" }

/-- Embedding of `DeviceDatabase.upsert_device`: returns the new table and the
"is new" flag (true iff the lowercased MAC had no row). -/
def upsertDevice (db : Db) (d : Device) (now : Nat) : Db × Bool :=
  let mac := strLower d.mac
  match getDevice db mac with
  | some r => (dbSet db mac (updRec r d now), false)
  | none => (db ++ [(mac, freshRec d now)], true)

/-- Embedding of `DeviceDatabase.log_event`: append one row to `device_history`. -/
def logEvent (hist : List HistEvent) (mac eventType ip details : String)
    (now : Nat) : List HistEvent :=
  hist ++ [{ mac := strLower mac, ip := ip, event_type := eventType,
             timestamp := now, details := details }]

/-- Embedding of `DeviceDatabase.mark_known`. -/
def markKnown (db : Db) (mac : String) (isKnown : Bool) : Db :=
  db.map (fun p => if p.1 = strLower mac then (p.1, { p.2 with is_known := isKnown }) else p)

/-- Embedding of `DeviceDatabase.mark_trusted`. -/
def markTrusted (db : Db) (mac : String) (isTrusted : Bool) : Db :=
  db.map (fun p => if p.1 = strLower mac then (p.1, { p.2 with is_trusted := isTrusted }) else p)

/-- Embedding of `DeviceDatabase.set_custom_name`. -/
def setCustomName (db : Db) (mac : String) (name : String) : Db :=
  db.map (fun p => if p.1 = strLower mac then (p.1, { p.2 with custom_name := name }) else p)

/-- Embedding of `DeviceDatabase.get_device_history`: rows of the lowercased MAC,
most recent first, up to `limit`. -/
def getDeviceHistory (hist : List HistEvent) (mac : String) (limit : Nat) : List HistEvent :=
  ((hist.filter (fun e => e.mac == strLower mac)).reverse).take limit

/-- A sequence of `upsert_device` calls, each with its own timestamp. -/
def applyUpserts (db : Db) (us : List (Device × Nat)) : Db :=
  us.foldl (fun db p => (upsertDevice db p.1 p.2).1) db

/-- Statement-level helper: the last non-empty string of a list, with a
fallback value. -/
def lastNonEmpty (dflt : String) (xs : List String) : String :=
  xs.foldl (fun a x => if x = "" then a else x) dflt

/-! ### Change Detector (src/helpers/monitor.py, NetworkMonitor.scan_network)

`scan_network` is embedded from the line `current_macs = set()` on: the
merged discovery output (ARP table, optional ping sweep, enrichment) is
injected as the `devices` argument, exactly the list the loop
`for device in devices` consumes.  Python sets are lists kept
duplicate-free by `insertMac`; the notification callbacks mutate no
monitor state (scan_network's `_notify` swallows their exceptions) and
are not modelled.  `log_scan`'s append is modelled as an infallible
list append; the fallible variant of the history writes lives in
`scanNetworkE` below. -/

inductive ChangeType where
  | new
  | returned
  | gone
  | changed
deriving DecidableEq, Repr

/-- The `DeviceChange` dataclass (its timestamp field is not consulted
by any property and is omitted). -/
structure DeviceChange where
  change_type : ChangeType
  device : Device
  previous_state : Option DeviceRec
deriving DecidableEq, Repr

/-- The monitor-owned state shared across cycles: the store plus the
strictly in-memory `_last_scan_devices` and `_current_devices`. -/
structure MonitorState where
  db : Db
  hist : List HistEvent
  scanLog : List (Nat × Nat × Nat)
  lastScan : List String
  current : List (String × Device)
deriving DecidableEq, Repr

/-- The loop-local variables of one `scan_network` cycle. -/
structure CycleAcc where
  db : Db
  hist : List HistEvent
  current : List (String × Device)
  currentMacs : List String
  changes : List DeviceChange
  newCount : Nat
  goneCount : Nat
  logIdx : Nat
deriving DecidableEq, Repr

/-- Python `set.add`. -/
def insertMac (l : List String) (m : String) : List String :=
  if m ∈ l then l else l ++ [m]

/-- Python dict assignment `d[k] = v`. -/
def setAssoc (l : List (String × Device)) (k : String) (d : Device) :
    List (String × Device) :=
  if l.any (fun p => p.1 == k) then l.map (fun p => if p.1 = k then (k, d) else p)
  else l ++ [(k, d)]

/-- One iteration of `for device in devices` in `scan_network`:
skip MAC-less devices, record the MAC as live, read the stored record,
upsert, then classify NEW / RETURNED / CHANGED (an `if`/`elif` chain,
so the classifications are mutually exclusive). -/
def processDevice (lastScan : List String) (now : Nat) (acc : CycleAcc)
    (d : Device) : CycleAcc :=
  if d.mac = "" then acc
  else
    let mac := strLower d.mac
    let currentMacs := insertMac acc.currentMacs mac
    let current := setAssoc acc.current mac d
    let existing := getDevice acc.db mac
    let res := upsertDevice acc.db d now
    let base : CycleAcc := { acc with db := res.1, currentMacs := currentMacs, current := current }
    if res.2 then
      { base with
        newCount := acc.newCount + 1
        changes := acc.changes ++ [{ change_type := ChangeType.new, device := d, previous_state := none }]
        hist := logEvent base.hist mac ("new") d.ip
          (if d.hostname = "" then ("New device: unknown") else ("New device: ") ++ d.hostname) now
        logIdx := acc.logIdx + 1 }
    else
      match existing with
      | some e =>
        if mac ∉ lastScan then
          { base with
            changes := acc.changes ++ [{ change_type := ChangeType.returned, device := d, previous_state := some e }]
            hist := logEvent base.hist mac ("returned") d.ip ("") now
            logIdx := acc.logIdx + 1 }
        else if e.ip ≠ d.ip then
          { base with
            changes := acc.changes ++ [{ change_type := ChangeType.changed, device := d, previous_state := some e }]
            hist := logEvent base.hist mac ("ip_changed") d.ip (("IP changed from ") ++ e.ip) now
            logIdx := acc.logIdx + 1 }
        else base
      | none => base

/-- One iteration of the gone loop `for mac in self._last_scan_devices`:
a MAC absent from the current live set counts as gone and, when a
stored record exists, emits a GONE change built from that record. -/
def goneStep (currentMacs : List String) (now : Nat) (acc : CycleAcc)
    (mac : String) : CycleAcc :=
  if mac ∈ currentMacs then acc
  else
    let acc1 := { acc with goneCount := acc.goneCount + 1 }
    match getDevice acc1.db mac with
    | some e =>
      { acc1 with
        changes := acc1.changes ++
          [{ change_type := ChangeType.gone
             device := { ip := e.ip, mac := mac, hostname := e.hostname, vendor := e.vendor }
             previous_state := none }]
        hist := logEvent acc1.hist mac ("gone") e.ip ("") now
        logIdx := acc1.logIdx + 1 }
    | none => acc1

/-- The cycle-local accumulator at the top of `scan_network`:
the loop-local variables start empty/zero, the store and tracking
dictionaries are the monitor's. -/
def initAcc (st : MonitorState) : CycleAcc :=
  { db := st.db, hist := st.hist, current := st.current,
    currentMacs := [], changes := [], newCount := 0,
    goneCount := 0, logIdx := 0 }

/-- Embedding of `NetworkMonitor.scan_network` on an injected discovery result:
process every live device, sweep the prior live set for gone devices,
replace `_last_scan_devices` with the current live set, log the scan
summary, and return the cycle's Change list. -/
def scanNetwork (st : MonitorState) (devices : List Device) (now : Nat) :
    MonitorState × List DeviceChange :=
  let acc1 := devices.foldl (processDevice st.lastScan now) (initAcc st)
  let acc2 := st.lastScan.foldl (goneStep acc1.currentMacs now) acc1
  ({ db := acc2.db, hist := acc2.hist,
     scanLog := st.scanLog ++ [(devices.length, acc2.newCount, acc2.goneCount)],
     lastScan := acc2.currentMacs, current := acc2.current }, acc2.changes)

/-! ### scan_network with fallible history writes

`DeviceDatabase.log_event` performs a bare SQLite INSERT with no
`try`/`except`, and `scan_network` calls it outside any handler: a
raised `sqlite3.Error` propagates out of the cycle.  The oracle `logOk`
says whether the k-th history INSERT of the cycle succeeds; a failure
is the raised exception, which aborts the cycle (`Except.error`).
Store effects already committed before the raise are not tracked. -/

/-- Embedding of `log_event` under the write oracle. -/
def logEventE (logOk : Nat → Bool) (idx : Nat) (hist : List HistEvent)
    (mac eventType ip details : String) (now : Nat) : Except Unit (List HistEvent) :=
  if logOk idx then Except.ok (logEvent hist mac eventType ip details now)
  else Except.error ()

/-- Variant of `processDevice` with fallible history writes. -/
def processDeviceE (logOk : Nat → Bool) (lastScan : List String) (now : Nat)
    (acc : CycleAcc) (d : Device) : Except Unit CycleAcc :=
  if d.mac = "" then Except.ok acc
  else
    let mac := strLower d.mac
    let currentMacs := insertMac acc.currentMacs mac
    let current := setAssoc acc.current mac d
    let existing := getDevice acc.db mac
    let res := upsertDevice acc.db d now
    let base : CycleAcc := { acc with db := res.1, currentMacs := currentMacs, current := current }
    if res.2 then
      match logEventE logOk acc.logIdx base.hist mac ("new") d.ip
          (if d.hostname = "" then ("New device: unknown") else ("New device: ") ++ d.hostname) now with
      | Except.ok h2 =>
        Except.ok { base with
          newCount := acc.newCount + 1
          changes := acc.changes ++ [{ change_type := ChangeType.new, device := d, previous_state := none }]
          hist := h2
          logIdx := acc.logIdx + 1 }
      | Except.error e => Except.error e
    else
      match existing with
      | some e =>
        if mac ∉ lastScan then
          match logEventE logOk acc.logIdx base.hist mac ("returned") d.ip ("") now with
          | Except.ok h2 =>
            Except.ok { base with
              changes := acc.changes ++ [{ change_type := ChangeType.returned, device := d, previous_state := some e }]
              hist := h2
              logIdx := acc.logIdx + 1 }
          | Except.error er => Except.error er
        else if e.ip ≠ d.ip then
          match logEventE logOk acc.logIdx base.hist mac ("ip_changed") d.ip (("IP changed from ") ++ e.ip) now with
          | Except.ok h2 =>
            Except.ok { base with
              changes := acc.changes ++ [{ change_type := ChangeType.changed, device := d, previous_state := some e }]
              hist := h2
              logIdx := acc.logIdx + 1 }
          | Except.error er => Except.error er
        else Except.ok base
      | none => Except.ok base

/-- Variant of `goneStep` with fallible history writes. -/
def goneStepE (logOk : Nat → Bool) (currentMacs : List String) (now : Nat)
    (acc : CycleAcc) (mac : String) : Except Unit CycleAcc :=
  if mac ∈ currentMacs then Except.ok acc
  else
    let acc1 := { acc with goneCount := acc.goneCount + 1 }
    match getDevice acc1.db mac with
    | some e =>
      match logEventE logOk acc1.logIdx acc1.hist mac ("gone") e.ip ("") now with
      | Except.ok h2 =>
        Except.ok { acc1 with
          changes := acc1.changes ++
            [{ change_type := ChangeType.gone
               device := { ip := e.ip, mac := mac, hostname := e.hostname, vendor := e.vendor }
               previous_state := none }]
          hist := h2
          logIdx := acc1.logIdx + 1 }
      | Except.error er => Except.error er
    | none => Except.ok acc1

/-- Embedding of `scan_network` with fallible history writes: an uncaught store
exception aborts the cycle before its Change list is returned. -/
def scanNetworkE (logOk : Nat → Bool) (st : MonitorState) (devices : List Device)
    (now : Nat) : Except Unit (MonitorState × List DeviceChange) :=
  match devices.foldlM (processDeviceE logOk st.lastScan now) (initAcc st) with
  | Except.error e => Except.error e
  | Except.ok acc1 =>
    match st.lastScan.foldlM (goneStepE logOk acc1.currentMacs now) acc1 with
    | Except.error e => Except.error e
    | Except.ok acc2 =>
      Except.ok ({ db := acc2.db
                   hist := acc2.hist
                   scanLog := st.scanLog ++ [(devices.length, acc2.newCount, acc2.goneCount)]
                   lastScan := acc2.currentMacs
                   current := acc2.current }, acc2.changes)

/-! ### Monitor Loop (src/helpers/monitor.py, monitor_loop / stop)

A discrete-time model of `monitor_loop`.  `stop()` only assigns
`self.running = False`; it neither cancels the task nor interacts with
`asyncio.sleep`, so the flag is consulted solely at the `while
self.running` check.  Time advances one tick per unit of sleeping or
scanning; `stopT` is the tick at which `stop()` runs, so the flag reads
false at time `t` iff `stopT ≤ t`.  A cycle takes `cyc` ticks and the
inter-cycle sleep `interval` ticks. -/

inductive LoopPhase where
  | cycling (k : Nat)
  | check
  | sleeping (k : Nat)
  | stopped
deriving DecidableEq, Repr

structure LoopState where
  phase : LoopPhase
  time : Nat
deriving DecidableEq, Repr

/-- One discrete step of `monitor_loop`.  Sleeping and cycling advance
time without consulting the running flag (the source awaits
`asyncio.sleep` / `scan_network` with no cancellation); only the
`while self.running` check reads it. -/
def loopStep (interval cyc stopT : Nat) (s : LoopState) : LoopState :=
  match s.phase with
  | LoopPhase.cycling (k + 1) => { phase := LoopPhase.cycling k, time := s.time + 1 }
  | LoopPhase.cycling 0 => { phase := LoopPhase.check, time := s.time }
  | LoopPhase.check =>
    if stopT ≤ s.time then { s with phase := LoopPhase.stopped }
    else { phase := LoopPhase.sleeping interval, time := s.time }
  | LoopPhase.sleeping (k + 1) => { phase := LoopPhase.sleeping k, time := s.time + 1 }
  | LoopPhase.sleeping 0 => { phase := LoopPhase.cycling cyc, time := s.time }
  | LoopPhase.stopped => s

/-- The loop begins with the initial scan. -/
def loopInit (cyc : Nat) : LoopState :=
  { phase := LoopPhase.cycling cyc, time := 0 }

/-- The loop state after `n` discrete steps. -/
def loopRun (interval cyc stopT n : Nat) : LoopState :=
  Nat.rec (loopInit cyc) (fun _ s => loopStep interval cyc stopT s) n

/-! ### Statement-level helpers for the change-detection claims -/

/-- The lowercased MACs of the devices the per-device loop does not
skip (those with a non-empty MAC), in scan order. -/
def macsOf (devices : List Device) : List String :=
  (devices.filter (fun d => d.mac != "")).map (fun d => strLower d.mac)

/-- How many changes of a cycle concern the (lowercased) MAC `m` and
have type `t`. -/
def countCh (l : List DeviceChange) (m : String) (t : ChangeType) : Nat :=
  l.countP (fun c => strLower c.device.mac == m && c.change_type == t)

/-- The change list one device contributes in the per-device loop,
as a function of the store state at its turn (specification-level
companion of `processDevice`). -/
def emitted (db : Db) (ls : List String) (d : Device) : List DeviceChange :=
  if d.mac = "" then []
  else
    match getDevice db (strLower d.mac) with
    | none => [{ change_type := ChangeType.new, device := d, previous_state := none }]
    | some e =>
      if strLower d.mac ∉ ls then
        [{ change_type := ChangeType.returned, device := d, previous_state := some e }]
      else if e.ip ≠ d.ip then
        [{ change_type := ChangeType.changed, device := d, previous_state := some e }]
      else []

/-- Statement-level helper: the last element of a list, with a
fallback value. -/
def lastD (dflt : String) (xs : List String) : String :=
  xs.foldl (fun _ x => x) dflt

/-- Statement-level helper: the last timestamp of a list, with a
fallback value. -/
def lastT (dflt : Nat) (xs : List Nat) : Nat :=
  xs.foldl (fun _ x => x) dflt

/-! ### Store-level lemmas -/

theorem lookup_cons_ne {β : Type} {a k : String} (b : β) (es : List (String × β))
    (h : a ≠ k) : ((k, b) :: es).lookup a = es.lookup a := by
  have hb : (a == k) = false := by simp [h]
  rw [List.lookup_cons, hb]

theorem dbSet_cons_eq (t : Db) (b : DeviceRec) (k : String) (r : DeviceRec) :
    dbSet ((k, b) :: t) k r = (k, r) :: dbSet t k r := by
  simp [dbSet]

theorem dbSet_cons_ne (t : Db) (a : String) (b : DeviceRec) (k : String)
    (r : DeviceRec) (h : a ≠ k) :
    dbSet ((a, b) :: t) k r = (a, b) :: dbSet t k r := by
  simp [dbSet, h]

theorem lookup_dbSet_ne (db : Db) (k : String) (r : DeviceRec) (m : String)
    (h : m ≠ k) : (dbSet db k r).lookup m = db.lookup m := by
  induction db with
  | nil => rfl
  | cons p t ih =>
    obtain ⟨a, b⟩ := p
    by_cases hp : a = k
    · subst hp
      rw [dbSet_cons_eq, lookup_cons_ne _ _ h, lookup_cons_ne _ _ h, ih]
    · by_cases hma : m = a
      · subst hma
        rw [dbSet_cons_ne _ _ _ _ _ hp]
        simp [List.lookup_cons]
      · rw [dbSet_cons_ne _ _ _ _ _ hp, lookup_cons_ne _ _ hma,
          lookup_cons_ne _ _ hma, ih]

theorem lookup_dbSet_self (db : Db) (k : String) (r r0 : DeviceRec)
    (h : db.lookup k = some r0) : (dbSet db k r).lookup k = some r := by
  induction db with
  | nil => simp at h
  | cons p t ih =>
    obtain ⟨a, b⟩ := p
    by_cases hp : a = k
    · subst hp
      rw [dbSet_cons_eq]
      simp [List.lookup_cons]
    · have hka : k ≠ a := fun hh => hp hh.symm
      rw [lookup_cons_ne _ _ hka] at h
      rw [dbSet_cons_ne _ _ _ _ _ hp, lookup_cons_ne _ _ hka]
      exact ih h

theorem lookup_append_one_ne (db : Db) (k : String) (r : DeviceRec) (m : String)
    (h : m ≠ k) : (db ++ [(k, r)]).lookup m = db.lookup m := by
  induction db with
  | nil =>
    rw [List.nil_append, lookup_cons_ne _ _ h]
  | cons p t ih =>
    obtain ⟨a, b⟩ := p
    by_cases hma : m = a
    · subst hma
      rw [List.cons_append]
      simp [List.lookup_cons]
    · rw [List.cons_append, lookup_cons_ne _ _ hma, lookup_cons_ne _ _ hma, ih]

theorem lookup_append_one_self (db : Db) (k : String) (r : DeviceRec) :
    db.lookup k = none → (db ++ [(k, r)]).lookup k = some r := by
  induction db with
  | nil =>
    intro _
    simp
  | cons p t ih =>
    intro h
    obtain ⟨a, b⟩ := p
    by_cases hka : k = a
    · subst hka
      simp at h
    · rw [lookup_cons_ne _ _ hka] at h
      rw [List.cons_append, lookup_cons_ne _ _ hka]
      exact ih h

theorem getDevice_eq (db : Db) (m : String) :
    getDevice db m = db.lookup (strLower m) := rfl

theorem getDevice_strLower (db : Db) (m : String) :
    getDevice db (strLower m) = db.lookup (strLower m) := by
  rw [getDevice_eq, strLower_idem]

theorem upsert_of_none (db : Db) (d : Device) (now : Nat)
    (h : db.lookup (strLower d.mac) = none) :
    upsertDevice db d now = (db ++ [(strLower d.mac, freshRec d now)], true) := by
  simp only [upsertDevice, getDevice_eq, strLower_idem, h]

theorem upsert_of_some (db : Db) (d : Device) (now : Nat) (r : DeviceRec)
    (h : db.lookup (strLower d.mac) = some r) :
    upsertDevice db d now = (dbSet db (strLower d.mac) (updRec r d now), false) := by
  simp only [upsertDevice, getDevice_eq, strLower_idem, h]

theorem upsert_lookup_ne (db : Db) (d : Device) (now : Nat) (m : String)
    (h : m ≠ strLower d.mac) :
    (upsertDevice db d now).1.lookup m = db.lookup m := by
  cases hdb : db.lookup (strLower d.mac) with
  | none => rw [upsert_of_none db d now hdb]; exact lookup_append_one_ne _ _ _ _ h
  | some r => rw [upsert_of_some db d now r hdb]; exact lookup_dbSet_ne _ _ _ _ h

theorem upsert_lookup_self (db : Db) (d : Device) (now : Nat) :
    (upsertDevice db d now).1.lookup (strLower d.mac) =
      some (match db.lookup (strLower d.mac) with
            | some r => updRec r d now
            | none => freshRec d now) := by
  cases hdb : db.lookup (strLower d.mac) with
  | none => rw [upsert_of_none db d now hdb]; exact lookup_append_one_self _ _ _ hdb
  | some r => rw [upsert_of_some db d now r hdb]; exact lookup_dbSet_self _ _ _ _ hdb

/-! ### macsOf / countCh / emitted lemmas -/

theorem macsOf_nil : macsOf [] = [] := rfl

theorem macsOf_cons (d : Device) (l : List Device) :
    macsOf (d :: l) =
      if d.mac = "" then macsOf l else strLower d.mac :: macsOf l := by
  by_cases h : d.mac = ""
  · simp [macsOf, List.filter_cons, h]
  · simp [macsOf, List.filter_cons, h]

theorem mem_macsOf_of_mem {d : Device} {l : List Device} (hd : d ∈ l)
    (h : d.mac ≠ "") : strLower d.mac ∈ macsOf l := by
  induction l with
  | nil => cases hd
  | cons x t ih =>
    rw [macsOf_cons]
    rcases List.mem_cons.mp hd with heq | hmem
    · subst heq
      rw [if_neg h]
      exact List.mem_cons_self _ _
    · by_cases hx : x.mac = ""
      · rw [if_pos hx]; exact ih hmem
      · rw [if_neg hx]; exact List.mem_cons_of_mem _ (ih hmem)

theorem countCh_nil (m : String) (t : ChangeType) : countCh [] m t = 0 := rfl

theorem countCh_append (l1 l2 : List DeviceChange) (m : String) (t : ChangeType) :
    countCh (l1 ++ l2) m t = countCh l1 m t + countCh l2 m t := by
  simp [countCh, List.countP_append]

theorem emitted_device (db : Db) (ls : List String) (d : Device) :
    ∀ c ∈ emitted db ls d, c.device = d := by
  intro c hc
  unfold emitted at hc
  split at hc
  · cases hc
  · split at hc
    · simp at hc; rw [hc]
    · split at hc
      · simp at hc; rw [hc]
      · split at hc
        · simp at hc; rw [hc]
        · cases hc

theorem emitted_countCh_ne (db : Db) (ls : List String) (d : Device) (m : String)
    (t : ChangeType) (h : d.mac = "" ∨ strLower d.mac ≠ m) :
    countCh (emitted db ls d) m t = 0 := by
  apply List.countP_eq_zero.mpr
  intro c hc
  have hcd := emitted_device db ls d c hc
  rcases h with h | h
  · rw [emitted, if_pos h] at hc; cases hc
  · simp [hcd, h]

theorem emitted_congr (db1 db2 : Db) (ls : List String) (d : Device)
    (h2 : strLower d.mac = m)
    (h1 : db1.lookup m = db2.lookup m) :
    emitted db1 ls d = emitted db2 ls d := by
  unfold emitted
  rw [getDevice_eq, getDevice_eq, strLower_idem, h2, h1]

/-! ### processDevice characterization -/

theorem processDevice_changes (ls : List String) (now : Nat) (acc : CycleAcc)
    (d : Device) :
    (processDevice ls now acc d).changes = acc.changes ++ emitted acc.db ls d := by
  by_cases h0 : d.mac = ""
  · simp [processDevice, emitted, h0]
  · cases hdb : acc.db.lookup (strLower d.mac) with
    | none =>
      have hu := upsert_of_none acc.db d now hdb
      have hex : getDevice acc.db (strLower d.mac) = none := by
        rw [getDevice_eq, strLower_idem, hdb]
      simp [processDevice, emitted, h0, hu, hex]
    | some r =>
      have hu := upsert_of_some acc.db d now r hdb
      have hex : getDevice acc.db (strLower d.mac) = some r := by
        rw [getDevice_eq, strLower_idem, hdb]
      by_cases hls : strLower d.mac ∉ ls
      · simp [processDevice, emitted, h0, hu, hex, hls]
      · by_cases hip : r.ip ≠ d.ip
        · simp [processDevice, emitted, h0, hu, hex, hls, hip]
        · simp [processDevice, emitted, h0, hu, hex, hls, hip]

theorem processDevice_currentMacs (ls : List String) (now : Nat) (acc : CycleAcc)
    (d : Device) :
    (processDevice ls now acc d).currentMacs =
      if d.mac = "" then acc.currentMacs
      else insertMac acc.currentMacs (strLower d.mac) := by
  by_cases h0 : d.mac = ""
  · simp [processDevice, h0]
  · cases hdb : acc.db.lookup (strLower d.mac) with
    | none =>
      have hu := upsert_of_none acc.db d now hdb
      have hex : getDevice acc.db (strLower d.mac) = none := by
        rw [getDevice_eq, strLower_idem, hdb]
      simp [processDevice, h0, hu, hex]
    | some r =>
      have hu := upsert_of_some acc.db d now r hdb
      have hex : getDevice acc.db (strLower d.mac) = some r := by
        rw [getDevice_eq, strLower_idem, hdb]
      by_cases hls : strLower d.mac ∉ ls
      · simp [processDevice, h0, hu, hex, hls]
      · by_cases hip : r.ip ≠ d.ip
        · simp [processDevice, h0, hu, hex, hls, hip]
        · simp [processDevice, h0, hu, hex, hls, hip]

theorem processDevice_db (ls : List String) (now : Nat) (acc : CycleAcc)
    (d : Device) :
    (processDevice ls now acc d).db =
      if d.mac = "" then acc.db else (upsertDevice acc.db d now).1 := by
  by_cases h0 : d.mac = ""
  · simp [processDevice, h0]
  · cases hdb : acc.db.lookup (strLower d.mac) with
    | none =>
      have hu := upsert_of_none acc.db d now hdb
      have hex : getDevice acc.db (strLower d.mac) = none := by
        rw [getDevice_eq, strLower_idem, hdb]
      simp [processDevice, h0, hu, hex]
    | some r =>
      have hu := upsert_of_some acc.db d now r hdb
      have hex : getDevice acc.db (strLower d.mac) = some r := by
        rw [getDevice_eq, strLower_idem, hdb]
      by_cases hls : strLower d.mac ∉ ls
      · simp [processDevice, h0, hu, hex, hls]
      · by_cases hip : r.ip ≠ d.ip
        · simp [processDevice, h0, hu, hex, hls, hip]
        · simp [processDevice, h0, hu, hex, hls, hip]

theorem processDevice_lookup_ne (ls : List String) (now : Nat) (acc : CycleAcc)
    (d : Device) (m : String) (h : m ≠ strLower d.mac) :
    (processDevice ls now acc d).db.lookup m = acc.db.lookup m := by
  rw [processDevice_db]
  by_cases h0 : d.mac = ""
  · rw [if_pos h0]
  · rw [if_neg h0]
    exact upsert_lookup_ne _ _ _ _ h

theorem processDevice_lookup_self (ls : List String) (now : Nat) (acc : CycleAcc)
    (d : Device) (h0 : d.mac ≠ "") :
    ∃ r, (processDevice ls now acc d).db.lookup (strLower d.mac) = some r ∧
      r.ip = d.ip := by
  rw [processDevice_db, if_neg h0, upsert_lookup_self]
  cases acc.db.lookup (strLower d.mac) with
  | none => exact ⟨freshRec d now, rfl, rfl⟩
  | some r => exact ⟨updRec r d now, rfl, rfl⟩

theorem processDevice_lookup_frame (ls : List String) (now : Nat) (acc : CycleAcc)
    (d : Device) (m : String) (h : d.mac = "" ∨ m ≠ strLower d.mac) :
    (processDevice ls now acc d).db.lookup m = acc.db.lookup m := by
  rcases h with h | h
  · rw [processDevice_db, if_pos h]
  · exact processDevice_lookup_ne _ _ _ _ _ h

/-! ### insertMac lemmas -/

theorem mem_insertMac {l : List String} {m x : String} :
    m ∈ insertMac l x ↔ m ∈ l ∨ m = x := by
  unfold insertMac
  by_cases h : x ∈ l
  · rw [if_pos h]
    constructor
    · exact Or.inl
    · rintro (h1 | h1)
      · exact h1
      · exact h1 ▸ h
  · rw [if_neg h]
    simp

theorem foldl_insertMac_mem (ms : List String) (l : List String) (m : String) :
    m ∈ ms.foldl insertMac l ↔ m ∈ l ∨ m ∈ ms := by
  induction ms generalizing l with
  | nil => simp
  | cons x t ih =>
    rw [List.foldl_cons, ih, mem_insertMac, List.mem_cons]
    tauto

/-! ### Fold lemmas for the per-device loop -/

theorem fold_countCh_notin (ls : List String) (now : Nat) (devices : List Device)
    (acc : CycleAcc) (m : String) (t : ChangeType) (h : m ∉ macsOf devices) :
    countCh ((devices.foldl (processDevice ls now) acc).changes) m t =
      countCh acc.changes m t := by
  induction devices generalizing acc with
  | nil => rfl
  | cons d rest ih =>
    rw [macsOf_cons] at h
    have hsplit : d.mac = "" ∨ strLower d.mac ≠ m := by
      by_cases h0 : d.mac = ""
      · exact Or.inl h0
      · rw [if_neg h0] at h
        exact Or.inr fun he => h (he ▸ List.mem_cons_self _ _)
    have hrest : m ∉ macsOf rest := by
      by_cases h0 : d.mac = ""
      · rwa [if_pos h0] at h
      · rw [if_neg h0] at h
        exact fun hm => h (List.mem_cons_of_mem _ hm)
    rw [List.foldl_cons, ih _ hrest, processDevice_changes, countCh_append,
      emitted_countCh_ne _ _ _ _ _ hsplit, Nat.add_zero]

theorem fold_lookup_notin (ls : List String) (now : Nat) (devices : List Device)
    (acc : CycleAcc) (m : String) (h : m ∉ macsOf devices) :
    (devices.foldl (processDevice ls now) acc).db.lookup m = acc.db.lookup m := by
  induction devices generalizing acc with
  | nil => rfl
  | cons d rest ih =>
    rw [macsOf_cons] at h
    have hsplit : d.mac = "" ∨ m ≠ strLower d.mac := by
      by_cases h0 : d.mac = ""
      · exact Or.inl h0
      · rw [if_neg h0] at h
        exact Or.inr fun he => h (he ▸ List.mem_cons_self _ _)
    have hrest : m ∉ macsOf rest := by
      by_cases h0 : d.mac = ""
      · rwa [if_pos h0] at h
      · rw [if_neg h0] at h
        exact fun hm => h (List.mem_cons_of_mem _ hm)
    rw [List.foldl_cons, ih _ hrest, processDevice_lookup_frame _ _ _ _ _ hsplit]

theorem fold_currentMacs (ls : List String) (now : Nat) (devices : List Device)
    (acc : CycleAcc) :
    (devices.foldl (processDevice ls now) acc).currentMacs =
      (macsOf devices).foldl insertMac acc.currentMacs := by
  induction devices generalizing acc with
  | nil => rfl
  | cons d rest ih =>
    rw [List.foldl_cons, ih, macsOf_cons, processDevice_currentMacs]
    by_cases h0 : d.mac = ""
    · rw [if_pos h0, if_pos h0]
    · rw [if_neg h0, if_neg h0, List.foldl_cons]

/-- The device the per-device loop classifies under MAC key `m`. -/
def macPred (m : String) : Device → Bool :=
  fun x => x.mac != "" && strLower x.mac == m

theorem find?_mac_none (devices : List Device) (m : String)
    (h : m ∉ macsOf devices) : devices.find? (macPred m) = none := by
  induction devices with
  | nil => rfl
  | cons d rest ih =>
    rw [macsOf_cons] at h
    have hpred : ¬macPred m d = true := by
      by_cases h0 : d.mac = ""
      · simp [macPred, h0]
      · rw [if_neg h0] at h
        have : strLower d.mac ≠ m := fun he => h (he ▸ List.mem_cons_self _ _)
        simp [macPred, h0, this]
    have hstep : (d :: rest).find? (macPred m) = rest.find? (macPred m) :=
      List.find?_cons_of_neg rest hpred
    rw [hstep]
    apply ih
    by_cases h0 : d.mac = ""
    · rwa [if_pos h0] at h
    · rw [if_neg h0] at h
      exact fun hm => h (List.mem_cons_of_mem _ hm)

theorem find?_mac_self (devices : List Device) (d : Device)
    (hnd : (macsOf devices).Nodup) (hd : d ∈ devices) (h0 : d.mac ≠ "") :
    devices.find? (macPred (strLower d.mac)) = some d := by
  induction devices with
  | nil => cases hd
  | cons x rest ih =>
    rcases List.mem_cons.mp hd with heq | hmem
    · subst heq
      have hp : macPred (strLower d.mac) d = true := by simp [macPred, h0]
      exact List.find?_cons_of_pos rest hp
    · rw [macsOf_cons] at hnd
      by_cases hx : x.mac = ""
      · rw [if_pos hx] at hnd
        have hp : ¬macPred (strLower d.mac) x = true := by simp [macPred, hx]
        have hstep : (x :: rest).find? (macPred (strLower d.mac)) =
            rest.find? (macPred (strLower d.mac)) :=
          List.find?_cons_of_neg rest hp
        rw [hstep]
        exact ih hnd hmem
      · rw [if_neg hx] at hnd
        have hxm : strLower x.mac ≠ strLower d.mac := by
          intro he
          exact (List.nodup_cons.mp hnd).1 (he ▸ mem_macsOf_of_mem hmem h0)
        have hp : ¬macPred (strLower d.mac) x = true := by simp [macPred, hx, hxm]
        have hstep : (x :: rest).find? (macPred (strLower d.mac)) =
            rest.find? (macPred (strLower d.mac)) :=
          List.find?_cons_of_neg rest hp
        rw [hstep]
        exact ih (List.nodup_cons.mp hnd).2 hmem

theorem fold_countCh (ls : List String) (now : Nat) (devices : List Device)
    (acc : CycleAcc) (m : String) (t : ChangeType)
    (hnd : (macsOf devices).Nodup) :
    countCh ((devices.foldl (processDevice ls now) acc).changes) m t =
      countCh acc.changes m t +
        (match devices.find? (macPred m) with
         | some d => countCh (emitted acc.db ls d) m t
         | none => 0) := by
  induction devices generalizing acc with
  | nil => rfl
  | cons d rest ih =>
    rw [List.foldl_cons]
    by_cases hmatch : macPred m d = true
    · have hm : d.mac ≠ "" ∧ strLower d.mac = m := by simpa [macPred] using hmatch
      have hnotin : m ∉ macsOf rest := by
        rw [macsOf_cons, if_neg hm.1, hm.2] at hnd
        exact (List.nodup_cons.mp hnd).1
      have hstep : (d :: rest).find? (macPred m) = some d :=
        List.find?_cons_of_pos rest hmatch
      rw [hstep, fold_countCh_notin _ _ _ _ _ _ hnotin, processDevice_changes,
        countCh_append]
    · have hsplit : d.mac = "" ∨ strLower d.mac ≠ m := by
        rcases not_and_or.mp (by simpa [macPred] using hmatch) with h | h
        · exact Or.inl (by simpa using h)
        · exact Or.inr h
      have hnd' : (macsOf rest).Nodup := by
        rw [macsOf_cons] at hnd
        by_cases h0 : d.mac = ""
        · rwa [if_pos h0] at hnd
        · rw [if_neg h0] at hnd
          exact (List.nodup_cons.mp hnd).2
      have hstep : (d :: rest).find? (macPred m) = rest.find? (macPred m) :=
        List.find?_cons_of_neg rest hmatch
      rw [hstep, ih _ hnd', processDevice_changes,
        countCh_append, emitted_countCh_ne _ _ _ _ _ hsplit, Nat.add_zero]
      cases hf : rest.find? (macPred m) with
      | none => rfl
      | some d2 =>
        have hp2 := List.find?_some hf
        have h2 : d2.mac ≠ "" ∧ strLower d2.mac = m := by simpa [macPred] using hp2
        have hframe : (processDevice ls now acc d).db.lookup m = acc.db.lookup m := by
          apply processDevice_lookup_frame
          rcases hsplit with h | h
          · exact Or.inl h
          · exact Or.inr fun he => h he.symm
        show countCh acc.changes m t +
            countCh (emitted (processDevice ls now acc d).db ls d2) m t =
          countCh acc.changes m t + countCh (emitted acc.db ls d2) m t
        rw [emitted_congr _ _ _ _ h2.2 hframe]

/-! ### Fold lemmas for the gone loop -/

/-- The changes one prior-live MAC contributes in the gone loop
(specification-level companion of `goneStep`). -/
def goneEmit (db : Db) (cm : List String) (x : String) : List DeviceChange :=
  if x ∈ cm then []
  else
    match getDevice db x with
    | some e =>
      [{ change_type := ChangeType.gone
         device := { ip := e.ip, mac := x, hostname := e.hostname, vendor := e.vendor }
         previous_state := none }]
    | none => []

theorem goneStep_db (cm : List String) (now : Nat) (acc : CycleAcc) (x : String) :
    (goneStep cm now acc x).db = acc.db := by
  by_cases hx : x ∈ cm
  · simp [goneStep, hx]
  · cases hg : getDevice acc.db x with
    | some e => simp [goneStep, hx, hg]
    | none => simp [goneStep, hx, hg]

theorem goneStep_currentMacs (cm : List String) (now : Nat) (acc : CycleAcc)
    (x : String) : (goneStep cm now acc x).currentMacs = acc.currentMacs := by
  by_cases hx : x ∈ cm
  · simp [goneStep, hx]
  · cases hg : getDevice acc.db x with
    | some e => simp [goneStep, hx, hg]
    | none => simp [goneStep, hx, hg]

theorem goneStep_changes (cm : List String) (now : Nat) (acc : CycleAcc)
    (x : String) :
    (goneStep cm now acc x).changes = acc.changes ++ goneEmit acc.db cm x := by
  by_cases hx : x ∈ cm
  · simp [goneStep, goneEmit, hx]
  · cases hg : getDevice acc.db x with
    | some e => simp [goneStep, goneEmit, hx, hg]
    | none => simp [goneStep, goneEmit, hx, hg]

theorem goneFold_db (cm : List String) (now : Nat) (ls : List String)
    (acc : CycleAcc) : (ls.foldl (goneStep cm now) acc).db = acc.db := by
  induction ls generalizing acc with
  | nil => rfl
  | cons x t ih => rw [List.foldl_cons, ih, goneStep_db]

theorem goneFold_currentMacs (cm : List String) (now : Nat) (ls : List String)
    (acc : CycleAcc) :
    (ls.foldl (goneStep cm now) acc).currentMacs = acc.currentMacs := by
  induction ls generalizing acc with
  | nil => rfl
  | cons x t ih => rw [List.foldl_cons, ih, goneStep_currentMacs]

theorem goneEmit_countCh_netype (db : Db) (cm : List String) (x m : String)
    (t : ChangeType) (ht : t ≠ ChangeType.gone) :
    countCh (goneEmit db cm x) m t = 0 := by
  have hb : (ChangeType.gone == t) = false := beq_eq_false_iff_ne.mpr (Ne.symm ht)
  by_cases hx : x ∈ cm
  · simp [goneEmit, hx, countCh]
  · cases hg : getDevice db x with
    | some e => simp [goneEmit, hx, hg, countCh, List.countP_cons, hb]
    | none => simp [goneEmit, hx, hg, countCh]

theorem goneEmit_countCh_ne (db : Db) (cm : List String) (x m : String)
    (t : ChangeType) (hx : strLower x ≠ m) :
    countCh (goneEmit db cm x) m t = 0 := by
  have hb : (strLower x == m) = false := beq_eq_false_iff_ne.mpr hx
  by_cases hcm : x ∈ cm
  · simp [goneEmit, hcm, countCh]
  · cases hg : getDevice db x with
    | some e => simp [goneEmit, hcm, hg, countCh, List.countP_cons, hb]
    | none => simp [goneEmit, hcm, hg, countCh]

theorem goneEmit_countCh_gone (db : Db) (cm : List String) (m : String)
    (hlow : strLower m = m) (hcm : m ∉ cm) (e : DeviceRec)
    (he : db.lookup m = some e) :
    countCh (goneEmit db cm m) m ChangeType.gone = 1 := by
  have hg : getDevice db m = some e := by rw [getDevice_eq, hlow, he]
  unfold goneEmit
  rw [if_neg hcm, hg]
  simp [countCh, List.countP_cons, hlow]

theorem goneFold_countCh_netype (cm : List String) (now : Nat) (ls : List String)
    (acc : CycleAcc) (m : String) (t : ChangeType) (ht : t ≠ ChangeType.gone) :
    countCh ((ls.foldl (goneStep cm now) acc).changes) m t =
      countCh acc.changes m t := by
  induction ls generalizing acc with
  | nil => rfl
  | cons x xs ih =>
    rw [List.foldl_cons, ih, goneStep_changes, countCh_append,
      goneEmit_countCh_netype _ _ _ _ _ ht, Nat.add_zero]

theorem goneFold_countCh_skip (cm : List String) (now : Nat) (ls : List String)
    (acc : CycleAcc) (m : String) (t : ChangeType)
    (hlow : ∀ x ∈ ls, strLower x = x) (h : m ∉ ls ∨ m ∈ cm) :
    countCh ((ls.foldl (goneStep cm now) acc).changes) m t =
      countCh acc.changes m t := by
  induction ls generalizing acc with
  | nil => rfl
  | cons x xs ih =>
    have hxlow := hlow x (List.mem_cons_self _ _)
    have hcontrib : countCh (goneEmit acc.db cm x) m t = 0 := by
      by_cases hxm : x = m
      · subst hxm
        rcases h with h | h
        · exact absurd (List.mem_cons_self _ _) h
        · unfold goneEmit
          rw [if_pos h]
          rfl
      · exact goneEmit_countCh_ne _ _ _ _ _ (by rw [hxlow]; exact hxm)
    have hrest : m ∉ xs ∨ m ∈ cm := by
      rcases h with h | h
      · exact Or.inl fun hm => h (List.mem_cons_of_mem _ hm)
      · exact Or.inr h
    rw [List.foldl_cons, ih _ (fun y hy => hlow y (List.mem_cons_of_mem _ hy)) hrest,
      goneStep_changes, countCh_append, hcontrib, Nat.add_zero]

theorem goneFold_countCh_gone_one (cm : List String) (now : Nat) (ls : List String)
    (acc : CycleAcc) (m : String) (e : DeviceRec)
    (hlow : ∀ x ∈ ls, strLower x = x) (hnd : ls.Nodup) (hm : m ∈ ls)
    (hcm : m ∉ cm) (he : acc.db.lookup m = some e) :
    countCh ((ls.foldl (goneStep cm now) acc).changes) m ChangeType.gone =
      countCh acc.changes m ChangeType.gone + 1 := by
  induction ls generalizing acc with
  | nil => cases hm
  | cons x xs ih =>
    rw [List.foldl_cons]
    by_cases hxm : x = m
    · subst hxm
      have hnotin : x ∉ xs := (List.nodup_cons.mp hnd).1
      rw [goneFold_countCh_skip _ _ _ _ _ _
        (fun y hy => hlow y (List.mem_cons_of_mem _ hy)) (Or.inl hnotin),
        goneStep_changes, countCh_append,
        goneEmit_countCh_gone _ _ _ (hlow x (List.mem_cons_self _ _)) hcm e he]
    · have hmxs : m ∈ xs := by
        rcases List.mem_cons.mp hm with h | h
        · exact absurd h.symm hxm
        · exact h
      have he2 : (goneStep cm now acc x).db.lookup m = some e := by
        rw [goneStep_db]; exact he
      rw [ih _ (fun y hy => hlow y (List.mem_cons_of_mem _ hy))
        (List.nodup_cons.mp hnd).2 hmxs he2, goneStep_changes, countCh_append,
        goneEmit_countCh_ne _ _ _ _ _
          (by rw [hlow x (List.mem_cons_self _ _)]; exact hxm), Nat.add_zero]

theorem goneStep_mem (cm : List String) (now : Nat) (acc : CycleAcc) (x : String)
    (hx : x ∈ cm) : goneStep cm now acc x = acc := by
  simp [goneStep, hx]

theorem goneFold_changes_all_mem (cm : List String) (now : Nat) (ls : List String)
    (acc : CycleAcc) (h : ∀ x ∈ ls, x ∈ cm) :
    (ls.foldl (goneStep cm now) acc).changes = acc.changes := by
  induction ls generalizing acc with
  | nil => rfl
  | cons x xs ih =>
    rw [List.foldl_cons, goneStep_mem _ _ _ _ (h x (List.mem_cons_self _ _)),
      ih _ (fun y hy => h y (List.mem_cons_of_mem _ hy))]

/-! ### scanNetwork projections -/

theorem scanNetwork_snd (st : MonitorState) (devices : List Device) (now : Nat) :
    (scanNetwork st devices now).2 =
      (st.lastScan.foldl
        (goneStep ((devices.foldl (processDevice st.lastScan now)
          (initAcc st)).currentMacs) now)
        (devices.foldl (processDevice st.lastScan now) (initAcc st))).changes := rfl

theorem scanNetwork_lastScan (st : MonitorState) (devices : List Device)
    (now : Nat) :
    (scanNetwork st devices now).1.lastScan =
      (macsOf devices).foldl insertMac [] := by
  show (st.lastScan.foldl
      (goneStep ((devices.foldl (processDevice st.lastScan now)
        (initAcc st)).currentMacs) now)
      (devices.foldl (processDevice st.lastScan now) (initAcc st))).currentMacs = _
  rw [goneFold_currentMacs, fold_currentMacs]
  rfl

theorem scanNetwork_db (st : MonitorState) (devices : List Device) (now : Nat) :
    (scanNetwork st devices now).1.db =
      (devices.foldl (processDevice st.lastScan now) (initAcc st)).db := by
  show (st.lastScan.foldl
      (goneStep ((devices.foldl (processDevice st.lastScan now)
        (initAcc st)).currentMacs) now)
      (devices.foldl (processDevice st.lastScan now) (initAcc st))).db = _
  rw [goneFold_db]

/-! ### emitted evaluation and singleton counting -/

theorem emitted_eq_new (db : Db) (ls : List String) (d : Device)
    (h0 : d.mac ≠ "") (he : getDevice db (strLower d.mac) = none) :
    emitted db ls d =
      [{ change_type := ChangeType.new, device := d, previous_state := none }] := by
  unfold emitted
  rw [if_neg h0, he]

theorem emitted_eq_returned (db : Db) (ls : List String) (d : Device)
    (e : DeviceRec) (h0 : d.mac ≠ "") (he : getDevice db (strLower d.mac) = some e)
    (hnotin : strLower d.mac ∉ ls) :
    emitted db ls d =
      [{ change_type := ChangeType.returned, device := d, previous_state := some e }] := by
  unfold emitted
  rw [if_neg h0, he]
  simp [hnotin]

theorem emitted_eq_changed (db : Db) (ls : List String) (d : Device)
    (e : DeviceRec) (h0 : d.mac ≠ "") (he : getDevice db (strLower d.mac) = some e)
    (hin : strLower d.mac ∈ ls) (hip : e.ip ≠ d.ip) :
    emitted db ls d =
      [{ change_type := ChangeType.changed, device := d, previous_state := some e }] := by
  unfold emitted
  rw [if_neg h0, he]
  simp [hin, hip]

theorem emitted_eq_nochange (db : Db) (ls : List String) (d : Device)
    (e : DeviceRec) (h0 : d.mac ≠ "") (he : getDevice db (strLower d.mac) = some e)
    (hin : strLower d.mac ∈ ls) (hip : e.ip = d.ip) :
    emitted db ls d = [] := by
  unfold emitted
  rw [if_neg h0, he]
  simp [hin, hip]

theorem countCh_single_eq (c : DeviceChange) (m : String) (t : ChangeType)
    (hm : strLower c.device.mac = m) (ht : c.change_type = t) :
    countCh [c] m t = 1 := by
  simp [countCh, List.countP_cons, hm, ht]

theorem countCh_single_netype (c : DeviceChange) (m : String) (t : ChangeType)
    (ht : c.change_type ≠ t) : countCh [c] m t = 0 := by
  have hb : (c.change_type == t) = false := beq_eq_false_iff_ne.mpr ht
  simp [countCh, List.countP_cons, hb]

/-- In a cycle, the changes concerning a live device's own MAC are
exactly its `emitted` contribution, computed over the pre-cycle store. -/
theorem scan_countCh_emitted (st : MonitorState) (devices : List Device)
    (now : Nat) (d : Device) (t : ChangeType)
    (hnd : (macsOf devices).Nodup)
    (hlow : ∀ x ∈ st.lastScan, strLower x = x)
    (hd : d ∈ devices) (h0 : d.mac ≠ "") :
    countCh (scanNetwork st devices now).2 (strLower d.mac) t =
      countCh (emitted st.db st.lastScan d) (strLower d.mac) t := by
  rw [scanNetwork_snd]
  have hseen : countCh ((devices.foldl (processDevice st.lastScan now)
      (initAcc st)).changes) (strLower d.mac) t =
      countCh (emitted st.db st.lastScan d) (strLower d.mac) t := by
    rw [fold_countCh _ _ _ _ _ _ hnd, find?_mac_self devices d hnd hd h0]
    show countCh [] (strLower d.mac) t +
      countCh (emitted st.db st.lastScan d) (strLower d.mac) t = _
    rw [countCh_nil, Nat.zero_add]
  by_cases ht : t = ChangeType.gone
  · subst ht
    have hmem : strLower d.mac ∈
        (devices.foldl (processDevice st.lastScan now) (initAcc st)).currentMacs := by
      rw [fold_currentMacs]
      exact (foldl_insertMac_mem _ _ _).mpr (Or.inr (mem_macsOf_of_mem hd h0))
    rw [goneFold_countCh_skip _ _ _ _ _ _ hlow (Or.inr hmem), hseen]
  · rw [goneFold_countCh_netype _ _ _ _ _ _ ht, hseen]

/-! ### Lemmas for the idempotence claim -/

theorem fold_ip_post (ls : List String) (now : Nat) :
    ∀ (devices : List Device) (acc : CycleAcc), (macsOf devices).Nodup →
      ∀ d ∈ devices, d.mac ≠ "" →
        ∃ r, (devices.foldl (processDevice ls now) acc).db.lookup (strLower d.mac) =
          some r ∧ r.ip = d.ip := by
  intro devices
  induction devices with
  | nil =>
    intro acc _ d hd
    cases hd
  | cons x rest ih =>
    intro acc hnd d hd h0
    rcases List.mem_cons.mp hd with heq | hmem
    · subst heq
      obtain ⟨r, hr, hip⟩ := processDevice_lookup_self ls now acc d h0
      have hnotin : strLower d.mac ∉ macsOf rest := by
        rw [macsOf_cons, if_neg h0] at hnd
        exact (List.nodup_cons.mp hnd).1
      rw [List.foldl_cons]
      exact ⟨r, by rw [fold_lookup_notin _ _ _ _ _ hnotin]; exact hr, hip⟩
    · have hnd' : (macsOf rest).Nodup := by
        rw [macsOf_cons] at hnd
        by_cases hx : x.mac = ""
        · rwa [if_pos hx] at hnd
        · rw [if_neg hx] at hnd
          exact (List.nodup_cons.mp hnd).2
      rw [List.foldl_cons]
      exact ih _ hnd' d hmem h0

theorem fold_no_changes (ls : List String) (now : Nat) :
    ∀ (devices : List Device) (acc : CycleAcc), (macsOf devices).Nodup →
      (∀ d ∈ devices, d.mac ≠ "" → strLower d.mac ∈ ls ∧
        ∃ r, acc.db.lookup (strLower d.mac) = some r ∧ r.ip = d.ip) →
      (devices.foldl (processDevice ls now) acc).changes = acc.changes := by
  intro devices
  induction devices with
  | nil =>
    intro acc _ _
    rfl
  | cons x rest ih =>
    intro acc hnd hpre
    have hnd' : (macsOf rest).Nodup := by
      rw [macsOf_cons] at hnd
      by_cases hx : x.mac = ""
      · rwa [if_pos hx] at hnd
      · rw [if_neg hx] at hnd
        exact (List.nodup_cons.mp hnd).2
    have hstep : (processDevice ls now acc x).changes = acc.changes := by
      rw [processDevice_changes]
      by_cases hx : x.mac = ""
      · rw [emitted, if_pos hx, List.append_nil]
      · obtain ⟨hin, r, hr, hip⟩ := hpre x (List.mem_cons_self _ _) hx
        have hg : getDevice acc.db (strLower x.mac) = some r := by
          rw [getDevice_strLower]; exact hr
        rw [emitted_eq_nochange _ _ _ _ hx hg hin hip, List.append_nil]
    have hpre' : ∀ d ∈ rest, d.mac ≠ "" → strLower d.mac ∈ ls ∧
        ∃ r, (processDevice ls now acc x).db.lookup (strLower d.mac) = some r ∧
          r.ip = d.ip := by
      intro d hd h0
      obtain ⟨hin, r, hr, hip⟩ := hpre d (List.mem_cons_of_mem _ hd) h0
      refine ⟨hin, r, ?_, hip⟩
      rw [processDevice_lookup_frame]
      · exact hr
      · by_cases hx : x.mac = ""
        · exact Or.inl hx
        · refine Or.inr fun he => ?_
          rw [macsOf_cons, if_neg hx] at hnd
          exact (List.nodup_cons.mp hnd).1 (he ▸ mem_macsOf_of_mem hd h0)
    rw [List.foldl_cons, ih _ hnd' hpre', hstep]

theorem fold_all_new (ls : List String) (now : Nat) :
    ∀ (devices : List Device) (acc : CycleAcc), (macsOf devices).Nodup →
      (∀ d ∈ devices, d.mac ≠ "" → acc.db.lookup (strLower d.mac) = none) →
      (∀ c ∈ acc.changes, c.change_type = ChangeType.new) →
      ∀ c ∈ (devices.foldl (processDevice ls now) acc).changes,
        c.change_type = ChangeType.new := by
  intro devices
  induction devices with
  | nil =>
    intro acc _ _ hall
    exact hall
  | cons x rest ih =>
    intro acc hnd hnone hall
    have hnd' : (macsOf rest).Nodup := by
      rw [macsOf_cons] at hnd
      by_cases hx : x.mac = ""
      · rwa [if_pos hx] at hnd
      · rw [if_neg hx] at hnd
        exact (List.nodup_cons.mp hnd).2
    have hall' : ∀ c ∈ (processDevice ls now acc x).changes,
        c.change_type = ChangeType.new := by
      intro c hc
      rw [processDevice_changes] at hc
      rcases List.mem_append.mp hc with hc | hc
      · exact hall c hc
      · by_cases hx : x.mac = ""
        · rw [emitted, if_pos hx] at hc
          cases hc
        · have hg : getDevice acc.db (strLower x.mac) = none := by
            rw [getDevice_strLower]
            exact hnone x (List.mem_cons_self _ _) hx
          rw [emitted_eq_new _ _ _ hx hg] at hc
          simp at hc
          rw [hc]
    have hnone' : ∀ d ∈ rest, d.mac ≠ "" →
        (processDevice ls now acc x).db.lookup (strLower d.mac) = none := by
      intro d hd h0
      rw [processDevice_lookup_frame]
      · exact hnone d (List.mem_cons_of_mem _ hd) h0
      · by_cases hx : x.mac = ""
        · exact Or.inl hx
        · refine Or.inr fun he => ?_
          rw [macsOf_cons, if_neg hx] at hnd
          exact (List.nodup_cons.mp hnd).1 (he ▸ mem_macsOf_of_mem hd h0)
    rw [List.foldl_cons]
    exact ih _ hnd' hnone' hall'

/-! ### Concrete fixtures used by the witnesses -/

def recA : DeviceRec :=
  { ip := "10.0.0.1", hostname := "", vendor := "", first_seen := 0,
    last_seen := 0, is_known := false, is_trusted := false, notes := "",
    custom_name := "" }

def devA : Device :=
  { ip := "10.0.0.2", mac := "AA:BB:CC:DD:EE:01", hostname := "", vendor := "" }

def devB : Device :=
  { ip := "10.0.0.3", mac := "AA:BB:CC:DD:EE:02", hostname := "", vendor := "" }

def stKnownLive : MonitorState :=
  { db := [("aa:bb:cc:dd:ee:01", recA)], hist := [], scanLog := [],
    lastScan := ["aa:bb:cc:dd:ee:01"], current := [] }

def stKnownFresh : MonitorState :=
  { db := [("aa:bb:cc:dd:ee:01", recA)], hist := [], scanLog := [],
    lastScan := [], current := [] }

def stEmpty : MonitorState :=
  { db := [], hist := [], scanLog := [], lastScan := [], current := [] }

/-! ### Claim theorems -/

/-- Claim C1: in one cycle, a MAC with a stored record whose key was in
the previous live set and is seen again with a different IP yields
exactly one CHANGED change and no RETURNED or GONE change; a MAC whose
upsert reports it as new (no stored record before the cycle) yields
exactly one NEW change and never a RETURNED or CHANGED one. -/
theorem claim1_theorem (st : MonitorState) (devices : List Device) (now : Nat)
    (hnd : (macsOf devices).Nodup)
    (hlow : ∀ x ∈ st.lastScan, strLower x = x) :
    (∀ d ∈ devices, ∀ e : DeviceRec, d.mac ≠ "" →
      getDevice st.db (strLower d.mac) = some e →
      strLower d.mac ∈ st.lastScan → e.ip ≠ d.ip →
      countCh (scanNetwork st devices now).2 (strLower d.mac) ChangeType.changed = 1 ∧
      countCh (scanNetwork st devices now).2 (strLower d.mac) ChangeType.returned = 0 ∧
      countCh (scanNetwork st devices now).2 (strLower d.mac) ChangeType.gone = 0) ∧
    (∀ d ∈ devices, d.mac ≠ "" →
      getDevice st.db (strLower d.mac) = none →
      countCh (scanNetwork st devices now).2 (strLower d.mac) ChangeType.new = 1 ∧
      countCh (scanNetwork st devices now).2 (strLower d.mac) ChangeType.returned = 0 ∧
      countCh (scanNetwork st devices now).2 (strLower d.mac) ChangeType.changed = 0) := by
  constructor
  · intro d hd e h0 he hin hip
    have hem := emitted_eq_changed st.db st.lastScan d e h0 he hin hip
    refine ⟨?_, ?_, ?_⟩
    · rw [scan_countCh_emitted st devices now d _ hnd hlow hd h0, hem,
        countCh_single_eq _ _ _ rfl rfl]
    · rw [scan_countCh_emitted st devices now d _ hnd hlow hd h0, hem,
        countCh_single_netype _ _ _ (fun h => ChangeType.noConfusion h)]
    · rw [scan_countCh_emitted st devices now d _ hnd hlow hd h0, hem,
        countCh_single_netype _ _ _ (fun h => ChangeType.noConfusion h)]
  · intro d hd h0 he
    have hem := emitted_eq_new st.db st.lastScan d h0 he
    refine ⟨?_, ?_, ?_⟩
    · rw [scan_countCh_emitted st devices now d _ hnd hlow hd h0, hem,
        countCh_single_eq _ _ _ rfl rfl]
    · rw [scan_countCh_emitted st devices now d _ hnd hlow hd h0, hem,
        countCh_single_netype _ _ _ (fun h => ChangeType.noConfusion h)]
    · rw [scan_countCh_emitted st devices now d _ hnd hlow hd h0, hem,
        countCh_single_netype _ _ _ (fun h => ChangeType.noConfusion h)]

theorem claim1_witness :
    countCh (scanNetwork stKnownLive [devA, devB] 1).2 (strLower devA.mac)
      ChangeType.changed = 1 ∧
    countCh (scanNetwork stKnownLive [devA, devB] 1).2 (strLower devA.mac)
      ChangeType.returned = 0 ∧
    countCh (scanNetwork stKnownLive [devA, devB] 1).2 (strLower devA.mac)
      ChangeType.gone = 0 ∧
    countCh (scanNetwork stKnownLive [devA, devB] 1).2 (strLower devB.mac)
      ChangeType.new = 1 ∧
    countCh (scanNetwork stKnownLive [devA, devB] 1).2 (strLower devB.mac)
      ChangeType.returned = 0 ∧
    countCh (scanNetwork stKnownLive [devA, devB] 1).2 (strLower devB.mac)
      ChangeType.changed = 0 := by
  have h := claim1_theorem stKnownLive [devA, devB] 1 (by decide) (by decide)
  have h1 := h.1 devA (by decide) recA (by decide) (by decide) (by decide) (by decide)
  have h2 := h.2 devB (by decide) (by decide) (by decide)
  exact ⟨h1.1, h1.2.1, h1.2.2, h2.1, h2.2.1, h2.2.2⟩

/-- Claim C2: if two consecutive cycles observe the same live device
list, the second cycle returns an empty Change list; and a single-shot
cycle on a fresh monitor (empty store, empty previous live set) returns
only NEW changes. -/
theorem claim2_theorem (st : MonitorState) (devices : List Device) (n1 n2 : Nat)
    (hnd : (macsOf devices).Nodup) :
    (scanNetwork (scanNetwork st devices n1).1 devices n2).2 = [] ∧
    (st.db = [] → st.lastScan = [] →
      ∀ c ∈ (scanNetwork st devices n1).2, c.change_type = ChangeType.new) := by
  constructor
  · have hls1 := scanNetwork_lastScan st devices n1
    have hdb1 := scanNetwork_db st devices n1
    rw [scanNetwork_snd]
    have hfold2 : (devices.foldl
        (processDevice (scanNetwork st devices n1).1.lastScan n2)
        (initAcc (scanNetwork st devices n1).1)).changes =
        (initAcc (scanNetwork st devices n1).1).changes := by
      apply fold_no_changes _ _ _ _ hnd
      intro d hd h0
      constructor
      · rw [hls1]
        exact (foldl_insertMac_mem _ _ _).mpr (Or.inr (mem_macsOf_of_mem hd h0))
      · obtain ⟨r, hr, hip⟩ := fold_ip_post st.lastScan n1 devices (initAcc st) hnd d hd h0
        refine ⟨r, ?_, hip⟩
        show (scanNetwork st devices n1).1.db.lookup (strLower d.mac) = some r
        rw [hdb1]
        exact hr
    rw [goneFold_changes_all_mem, hfold2]
    · rfl
    · intro x hx
      rw [fold_currentMacs]
      show x ∈ (macsOf devices).foldl insertMac []
      rw [hls1] at hx
      exact hx
  · intro hdb hls c hc
    rw [scanNetwork_snd, hls, List.foldl_nil] at hc
    refine fold_all_new [] n1 devices (initAcc st) hnd ?_ ?_ c hc
    · intro d _ _
      show st.db.lookup (strLower d.mac) = none
      rw [hdb]
      rfl
    · intro c2 hc2
      simp [initAcc] at hc2

theorem claim2_witness :
    (scanNetwork (scanNetwork stEmpty [devA, devB] 1).1 [devA, devB] 2).2 = [] ∧
    (∀ c ∈ (scanNetwork stEmpty [devA, devB] 1).2,
      c.change_type = ChangeType.new) := by
  have h := claim2_theorem stEmpty [devA, devB] 1 2 (by decide)
  exact ⟨h.1, h.2 rfl rfl⟩

/-- Claim C5: a MAC in the prior live set with a stored record that is
absent from the current cycle's live devices yields exactly one GONE
change in that cycle, and no GONE change in the following cycle in
which it is still absent. -/
theorem claim5_theorem (st : MonitorState) (devices devices2 : List Device)
    (n1 n2 : Nat) (m : String) (e : DeviceRec)
    (hlow : ∀ x ∈ st.lastScan, strLower x = x)
    (hnd : st.lastScan.Nodup)
    (hm : m ∈ st.lastScan)
    (hnot1 : m ∉ macsOf devices)
    (he : getDevice st.db m = some e)
    (hnot2 : m ∉ macsOf devices2) :
    countCh (scanNetwork st devices n1).2 m ChangeType.gone = 1 ∧
    countCh (scanNetwork (scanNetwork st devices n1).1 devices2 n2).2 m
      ChangeType.gone = 0 := by
  have hlowm : strLower m = m := hlow m hm
  have he' : st.db.lookup m = some e := by
    rw [getDevice_eq, hlowm] at he
    exact he
  constructor
  · rw [scanNetwork_snd]
    have hdb1 : (devices.foldl (processDevice st.lastScan n1)
        (initAcc st)).db.lookup m = some e := by
      rw [fold_lookup_notin _ _ _ _ _ hnot1]
      exact he'
    have hcm1 : m ∉ (devices.foldl (processDevice st.lastScan n1)
        (initAcc st)).currentMacs := by
      rw [fold_currentMacs]
      intro hmem
      rcases (foldl_insertMac_mem _ _ _).mp hmem with h | h
      · cases h
      · exact hnot1 h
    rw [goneFold_countCh_gone_one _ _ _ _ _ e hlow hnd hm hcm1 hdb1,
      fold_countCh_notin _ _ _ _ _ _ hnot1]
    rfl
  · have hls1 := scanNetwork_lastScan st devices n1
    have hnotls1 : m ∉ (scanNetwork st devices n1).1.lastScan := by
      rw [hls1]
      intro hmem
      rcases (foldl_insertMac_mem _ _ _).mp hmem with h | h
      · cases h
      · exact hnot1 h
    have hlow1 : ∀ x ∈ (scanNetwork st devices n1).1.lastScan, strLower x = x := by
      intro x hx
      rw [hls1] at hx
      rcases (foldl_insertMac_mem _ _ _).mp hx with h | h
      · cases h
      · unfold macsOf at h
        obtain ⟨d2, _, hd2⟩ := List.mem_map.mp h
        rw [← hd2, strLower_idem]
    rw [scanNetwork_snd,
      goneFold_countCh_skip _ _ _ _ _ _ hlow1 (Or.inl hnotls1),
      fold_countCh_notin _ _ _ _ _ _ hnot2]
    rfl

theorem claim5_witness :
    countCh (scanNetwork stKnownLive [devB] 1).2 ("aa:bb:cc:dd:ee:01")
      ChangeType.gone = 1 ∧
    countCh (scanNetwork (scanNetwork stKnownLive [devB] 1).1 [devB] 2).2
      ("aa:bb:cc:dd:ee:01") ChangeType.gone = 0 := by
  have h := claim5_theorem stKnownLive [devB] [devB] 1 2 ("aa:bb:cc:dd:ee:01")
    recA (by decide) (by decide) (by decide) (by decide) (by decide) (by decide)
  exact h

/-- Claim C9: on a freshly constructed monitor (empty in-memory
previous live set) whose store already holds a record for a MAC, the
first cycle that observes that MAC emits exactly one RETURNED change
for it. -/
theorem claim9_theorem (st : MonitorState) (devices : List Device) (now : Nat)
    (d : Device) (e : DeviceRec)
    (hE : st.lastScan = [])
    (hnd : (macsOf devices).Nodup)
    (hd : d ∈ devices) (h0 : d.mac ≠ "")
    (he : getDevice st.db (strLower d.mac) = some e) :
    countCh (scanNetwork st devices now).2 (strLower d.mac)
      ChangeType.returned = 1 := by
  have hlow : ∀ x ∈ st.lastScan, strLower x = x := by
    rw [hE]
    intro x hx
    cases hx
  rw [scan_countCh_emitted st devices now d _ hnd hlow hd h0,
    emitted_eq_returned st.db st.lastScan d e h0 he
      (by rw [hE]; exact List.not_mem_nil _),
    countCh_single_eq _ _ _ rfl rfl]

theorem claim9_witness :
    countCh (scanNetwork stKnownFresh [devA] 1).2 (strLower devA.mac)
      ChangeType.returned = 1 := by
  exact claim9_theorem stKnownFresh [devA] 1 devA recA rfl (by decide)
    (by decide) (by decide) (by decide)

/-- Claim C8 (amended): only malformed input makes the `ipaddress`
parsers raise, and even then `expand_cidr` and `expand_range` surface
no error to the caller — the `except ValueError` handler logs and
returns the empty list.  Well-formed endpoints of mismatched families
raise nothing: `expand_range` enumerates the inclusive integer range
between the two address values regardless of family. -/
theorem claim8_theorem :
    (∀ (s : String) (ho : Bool), parseNetwork s = none → expandCidr s ho = []) ∧
    (∀ a b : String, parseAddr a = none ∨ parseAddr b = none →
      expandRange a b = []) ∧
    (∀ (a b : String) (va vb : Nat), parseAddr a = some va →
      parseAddr b = some vb →
      expandRange a b =
        (List.range (vb + 1 - va)).map (fun i => ipAnyToString (va + i))) := by
  refine ⟨?_, ?_, ?_⟩
  · intro s ho h
    unfold expandCidr
    rw [h]
  · intro a b h
    unfold expandRange
    rcases h with h | h
    · rw [h]
    · rw [h]
      cases parseAddr a <;> rfl
  · intro a b va vb ha hb
    unfold expandRange
    rw [ha, hb]

/-- Claim C8 counterexample: a malformed CIDR (octet 300) and a
malformed range endpoint make the parse fail — the point where
`ipaddress` raises `ValueError` — yet both expanders return the empty
list to the caller instead of failing; and the family-mismatched but
well-formed range `::ff .. 10.0.0.1` raises no error at all: it
produces a 167 771 907-element list, not an empty or error result. -/
theorem claim8_counterexample :
    parseNetwork ("300.1.2.3/24") = none ∧
    expandCidr ("300.1.2.3/24") true = [] ∧
    parseAddr ("10.0.0.300") = none ∧
    expandRange ("10.0.0.300") ("10.0.0.1") = [] ∧
    parseAddr ("::ff") = some 255 ∧
    parseAddr ("10.0.0.1") = some 167772161 ∧
    (expandRange ("::ff") ("10.0.0.1")).length = 167771907 ∧
    expandRange ("::ff") ("10.0.0.1") ≠ [] := by
  have h1 : expandRange ("::ff") ("10.0.0.1") =
      (List.range (167772161 + 1 - 255)).map (fun i => ipAnyToString (255 + i)) := by
    unfold expandRange
    rw [(by decide : parseAddr ("::ff") = some 255),
      (by decide : parseAddr ("10.0.0.1") = some 167772161)]
  have hlen : (expandRange ("::ff") ("10.0.0.1")).length = 167771907 := by
    rw [h1, List.length_map, List.length_range]
  refine ⟨by decide, by decide, by decide, by decide, by decide, by decide,
    hlen, ?_⟩
  intro hc
  rw [hc] at hlen
  simp at hlen

theorem claim8_witness :
    expandCidr ("garbage") true = [] ∧
    expandRange ("10.0.0.1") ("oops") = [] ∧
    expandRange ("10.0.0.6") ("10.0.0.8") =
      (List.range (167772168 + 1 - 167772166)).map
        (fun i => ipAnyToString (167772166 + i)) ∧
    expandRange ("::ff") ("::101") =
      (List.range (257 + 1 - 255)).map (fun i => ipAnyToString (255 + i)) := by
  exact ⟨claim8_theorem.1 ("garbage") true (by decide),
    claim8_theorem.2.1 ("10.0.0.1") ("oops") (Or.inr (by decide)),
    claim8_theorem.2.2 ("10.0.0.6") ("10.0.0.8") 167772166 167772168
      (by decide) (by decide),
    claim8_theorem.2.2 ("::ff") ("::101") 255 257 (by decide) (by decide)⟩

/-! ### Concurrency bound of the probe scheduler (C4) -/

theorem countP_set (p : TaskPhase → Bool) :
    ∀ (l : List TaskPhase) (i : Nat) (a b : TaskPhase), l.get? i = some a →
      (l.set i b).countP p + (if p a then 1 else 0) =
        l.countP p + (if p b then 1 else 0) := by
  intro l
  induction l with
  | nil =>
    intro i a b h
    cases h
  | cons x xs ih =>
    intro i a b h
    cases i with
    | zero =>
      have hx : x = a := by
        injection h
      subst hx
      show (b :: xs).countP p + _ = (x :: xs).countP p + _
      simp only [List.countP_cons]
      omega
    | succ j =>
      have h2 : xs.get? j = some a := h
      show (x :: xs.set j b).countP p + _ = (x :: xs).countP p + _
      simp only [List.countP_cons]
      have := ih j a b h2
      omega

theorem schedStep_inFlight (n : Nat) (ts ts2 : List TaskPhase) (a : SchedAct)
    (h : schedStep n ts a = some ts2) (hb : inFlight ts ≤ n) :
    inFlight ts2 ≤ n := by
  cases a with
  | start i =>
    have h2 : (if ts.get? i = some TaskPhase.pending ∧ inFlight ts < n then
        some (ts.set i TaskPhase.running) else none) = some ts2 := h
    by_cases hc : ts.get? i = some TaskPhase.pending ∧ inFlight ts < n
    · rw [if_pos hc] at h2
      injection h2 with h2
      subst h2
      have hcount := countP_set (fun t => t == TaskPhase.running) ts i
        TaskPhase.pending TaskPhase.running hc.1
      simp at hcount
      have hlt := hc.2
      unfold inFlight at *
      omega
    · rw [if_neg hc] at h2
      cases h2
  | finish i =>
    have h2 : (if ts.get? i = some TaskPhase.running then
        some (ts.set i TaskPhase.done) else none) = some ts2 := h
    by_cases hc : ts.get? i = some TaskPhase.running
    · rw [if_pos hc] at h2
      injection h2 with h2
      subst h2
      have hcount := countP_set (fun t => t == TaskPhase.running) ts i
        TaskPhase.running TaskPhase.done hc
      simp at hcount
      unfold inFlight at *
      omega
    · rw [if_neg hc] at h2
      cases h2

theorem schedRun_inFlight (n : Nat) :
    ∀ (tr : List SchedAct) (ts ts2 : List TaskPhase),
      inFlight ts ≤ n → schedRun n ts tr = some ts2 → inFlight ts2 ≤ n := by
  intro tr
  induction tr with
  | nil =>
    intro ts ts2 hb h
    injection h with h
    subst h
    exact hb
  | cons a rest ih =>
    intro ts ts2 hb h
    unfold schedRun at h
    cases hs : schedStep n ts a with
    | none =>
      rw [hs] at h
      cases h
    | some ts1 =>
      rw [hs] at h
      exact ih ts1 ts2 (schedStep_inFlight n ts ts1 a hs hb) h

theorem inFlight_init (targets : List String) :
    inFlight (pingSweepInit targets) = 0 := by
  unfold inFlight pingSweepInit
  induction targets with
  | nil => rfl
  | cons x t ih =>
    simp only [List.map_cons, List.countP_cons]
    rw [ih]
    decide

/-- Claim C4: every scheduler interleaving of a `ping_sweep` batch
keeps the number of probes holding the semaphore at or below the
scanner's `max_concurrent` bound, whose constructor default is 100. -/
theorem claim4_theorem (sc : AsyncScanner) (targets : List String)
    (tr : List SchedAct) (ts : List TaskPhase)
    (h : schedRun sc.max_concurrent (pingSweepInit targets) tr = some ts) :
    inFlight ts ≤ sc.max_concurrent ∧ ({} : AsyncScanner).max_concurrent = 100 := by
  constructor
  · apply schedRun_inFlight sc.max_concurrent tr (pingSweepInit targets) ts _ h
    rw [inFlight_init]
    exact Nat.zero_le _
  · rfl

theorem claim4_witness :
    inFlight [TaskPhase.done, TaskPhase.running, TaskPhase.running] ≤
      ({ max_concurrent := 2 } : AsyncScanner).max_concurrent ∧
    ({} : AsyncScanner).max_concurrent = 100 := by
  exact claim4_theorem { max_concurrent := 2 } ["10.0.0.1", "10.0.0.2", "10.0.0.3"]
    [SchedAct.start 0, SchedAct.start 1, SchedAct.finish 0, SchedAct.start 2]
    [TaskPhase.done, TaskPhase.running, TaskPhase.running] (by decide)

/-! ### Upsert round trip (C6) -/

theorem applyUpserts_lookup (k : String) :
    ∀ (us : List (Device × Nat)) (db : Db) (r : DeviceRec),
      (∀ p ∈ us, strLower p.1.mac = k) → db.lookup k = some r →
      (applyUpserts db us).lookup k =
        some (us.foldl (fun r p => updRec r p.1 p.2) r) := by
  intro us
  induction us with
  | nil =>
    intro db r _ h
    exact h
  | cons u rest ih =>
    intro db r hall h
    have hk := hall u (List.mem_cons_self _ _)
    have hdb : db.lookup (strLower u.1.mac) = some r := by
      rw [hk]
      exact h
    have hu := upsert_of_some db u.1 u.2 r hdb
    have hnext : (upsertDevice db u.1 u.2).1.lookup k = some (updRec r u.1 u.2) := by
      rw [hu]
      show (dbSet db (strLower u.1.mac) (updRec r u.1 u.2)).lookup k = _
      rw [hk]
      exact lookup_dbSet_self _ _ _ _ h
    show (applyUpserts (upsertDevice db u.1 u.2).1 rest).lookup k = _
    rw [ih _ _ (fun p hp => hall p (List.mem_cons_of_mem _ hp)) hnext]
    rfl

theorem foldUpd_first_seen :
    ∀ (us : List (Device × Nat)) (r : DeviceRec),
      (us.foldl (fun r p => updRec r p.1 p.2) r).first_seen = r.first_seen := by
  intro us
  induction us with
  | nil => intro r; rfl
  | cons u rest ih => intro r; exact ih _

theorem foldUpd_ip :
    ∀ (us : List (Device × Nat)) (r : DeviceRec),
      (us.foldl (fun r p => updRec r p.1 p.2) r).ip =
        lastD r.ip (us.map (fun p => p.1.ip)) := by
  intro us
  induction us with
  | nil => intro r; rfl
  | cons u rest ih => intro r; exact ih _

theorem foldUpd_last_seen :
    ∀ (us : List (Device × Nat)) (r : DeviceRec),
      (us.foldl (fun r p => updRec r p.1 p.2) r).last_seen =
        lastT r.last_seen (us.map (fun p => p.2)) := by
  intro us
  induction us with
  | nil => intro r; rfl
  | cons u rest ih => intro r; exact ih _

theorem foldUpd_hostname :
    ∀ (us : List (Device × Nat)) (r : DeviceRec),
      (us.foldl (fun r p => updRec r p.1 p.2) r).hostname =
        lastNonEmpty r.hostname (us.map (fun p => p.1.hostname)) := by
  intro us
  induction us with
  | nil => intro r; rfl
  | cons u rest ih =>
    intro r
    show (rest.foldl (fun r p => updRec r p.1 p.2) (updRec r u.1 u.2)).hostname = _
    rw [ih]
    rfl

theorem foldUpd_vendor :
    ∀ (us : List (Device × Nat)) (r : DeviceRec),
      (us.foldl (fun r p => updRec r p.1 p.2) r).vendor =
        lastNonEmpty r.vendor (us.map (fun p => p.1.vendor)) := by
  intro us
  induction us with
  | nil => intro r; rfl
  | cons u rest ih =>
    intro r
    show (rest.foldl (fun r p => updRec r p.1 p.2) (updRec r u.1 u.2)).vendor = _
    rw [ih]
    rfl

/-- Claim C6 (amended): `upsert_device` returns true iff the MAC had no
record; after creation, for `hostname` and `vendor` the retrieved
record holds the last non-empty supplied value (falling back to the
creating upsert's value verbatim), while `ip` and `last_seen` hold the
values of the last upsert unconditionally — an empty `ip` does
overwrite — and `first_seen` never changes. -/
theorem claim6_theorem (db : Db) (d : Device) (now : Nat)
    (us : List (Device × Nat))
    (hk : ∀ p ∈ us, strLower p.1.mac = strLower d.mac)
    (h0 : getDevice db d.mac = none) :
    (upsertDevice db d now).2 = true ∧
    (∀ (db2 : Db) (d2 : Device) (n2 : Nat) (r2 : DeviceRec),
      getDevice db2 d2.mac = some r2 → (upsertDevice db2 d2 n2).2 = false) ∧
    (∃ r, getDevice (applyUpserts (upsertDevice db d now).1 us) d.mac = some r ∧
      r.ip = lastD d.ip (us.map (fun p => p.1.ip)) ∧
      r.hostname = lastNonEmpty d.hostname (us.map (fun p => p.1.hostname)) ∧
      r.vendor = lastNonEmpty d.vendor (us.map (fun p => p.1.vendor)) ∧
      r.first_seen = now ∧
      r.last_seen = lastT now (us.map (fun p => p.2))) := by
  have h0' : db.lookup (strLower d.mac) = none := h0
  have hu := upsert_of_none db d now h0'
  refine ⟨?_, ?_, ?_⟩
  · rw [hu]
  · intro db2 d2 n2 r2 hg
    have hg' : db2.lookup (strLower d2.mac) = some r2 := hg
    rw [upsert_of_some db2 d2 n2 r2 hg']
  · have hfresh : (upsertDevice db d now).1.lookup (strLower d.mac) =
        some (freshRec d now) := by
      rw [hu]
      exact lookup_append_one_self _ _ _ h0'
    refine ⟨us.foldl (fun r p => updRec r p.1 p.2) (freshRec d now), ?_, ?_, ?_, ?_, ?_, ?_⟩
    · exact applyUpserts_lookup (strLower d.mac) us _ (freshRec d now) hk hfresh
    · rw [foldUpd_ip]
      rfl
    · rw [foldUpd_hostname]
      rfl
    · rw [foldUpd_vendor]
      rfl
    · rw [foldUpd_first_seen]
      rfl
    · rw [foldUpd_last_seen]
      rfl

/-- Claim C6 counterexample: two upserts for one MAC, the second with
an empty IP.  The retrieved record's `ip` is the empty string — the
value of the last upsert — not the last non-empty value supplied
("10.0.0.1"), so the per-field "last non-empty value" claim fails for
the `ip` field. -/
theorem claim6_counterexample :
    (getDevice (applyUpserts ([] : Db)
      [({ ip := "10.0.0.1", mac := "AA:BB:CC:DD:EE:01", hostname := "", vendor := "" }, 0),
       ({ ip := "", mac := "AA:BB:CC:DD:EE:01", hostname := "", vendor := "" }, 1)])
      ("AA:BB:CC:DD:EE:01")).map DeviceRec.ip = some ("") ∧
    lastNonEmpty ("") ["10.0.0.1", ""] = "10.0.0.1" ∧
    some ("" : String) ≠ some ("10.0.0.1" : String) := by decide

theorem claim6_witness :
    (upsertDevice ([] : Db) devA 0).2 = true ∧
    (getDevice (applyUpserts (upsertDevice ([] : Db) devA 0).1
      [({ ip := "10.0.0.9", mac := "AA:BB:CC:DD:EE:01", hostname := "h9", vendor := "" }, 5)])
      devA.mac).map DeviceRec.ip = some ("10.0.0.9") ∧
    (getDevice (applyUpserts (upsertDevice ([] : Db) devA 0).1
      [({ ip := "10.0.0.9", mac := "AA:BB:CC:DD:EE:01", hostname := "h9", vendor := "" }, 5)])
      devA.mac).map DeviceRec.first_seen = some 0 ∧
    (getDevice (applyUpserts (upsertDevice ([] : Db) devA 0).1
      [({ ip := "10.0.0.9", mac := "AA:BB:CC:DD:EE:01", hostname := "h9", vendor := "" }, 5)])
      devA.mac).map DeviceRec.last_seen = some 5 := by
  have h := claim6_theorem ([] : Db) devA 0
    [({ ip := "10.0.0.9", mac := "AA:BB:CC:DD:EE:01", hostname := "h9", vendor := "" }, 5)]
    (by decide) rfl
  obtain ⟨r, hr, hip, hh, hv, hf, hl⟩ := h.2.2
  refine ⟨h.1, ?_, ?_, ?_⟩
  · rw [hr]
    show some r.ip = some ("10.0.0.9")
    rw [hip]
    decide
  · rw [hr]
    show some r.first_seen = some 0
    rw [hf]
  · rw [hr]
    show some r.last_seen = some 5
    rw [hl]
    decide

/-! ### History-write failure propagation (C7) -/

theorem processDeviceE_ok (ls : List String) (now : Nat) (acc : CycleAcc)
    (d : Device) :
    processDeviceE (fun _ => true) ls now acc d =
      Except.ok (processDevice ls now acc d) := by
  by_cases h0 : d.mac = ""
  · simp [processDeviceE, processDevice, h0]
  · cases hdb : acc.db.lookup (strLower d.mac) with
    | none =>
      have hu := upsert_of_none acc.db d now hdb
      have hex : getDevice acc.db (strLower d.mac) = none := by
        rw [getDevice_eq, strLower_idem, hdb]
      simp [processDeviceE, processDevice, h0, hu, hex, logEventE]
    | some r =>
      have hu := upsert_of_some acc.db d now r hdb
      have hex : getDevice acc.db (strLower d.mac) = some r := by
        rw [getDevice_eq, strLower_idem, hdb]
      by_cases hls : strLower d.mac ∉ ls
      · simp [processDeviceE, processDevice, h0, hu, hex, hls, logEventE]
      · by_cases hip : r.ip ≠ d.ip
        · simp [processDeviceE, processDevice, h0, hu, hex, hls, hip, logEventE]
        · simp [processDeviceE, processDevice, h0, hu, hex, hls, hip, logEventE]

theorem goneStepE_ok (cm : List String) (now : Nat) (acc : CycleAcc)
    (x : String) :
    goneStepE (fun _ => true) cm now acc x = Except.ok (goneStep cm now acc x) := by
  by_cases hx : x ∈ cm
  · simp [goneStepE, goneStep, hx]
  · cases hg : getDevice acc.db x with
    | some e => simp [goneStepE, goneStep, hx, hg, logEventE]
    | none => simp [goneStepE, goneStep, hx, hg]

theorem foldlM_ok {α β : Type} (g : β → α → Except Unit β) (f : β → α → β)
    (hc : ∀ b a, g b a = Except.ok (f b a)) :
    ∀ (l : List α) (b : β), l.foldlM g b = Except.ok (l.foldl f b) := by
  intro l
  induction l with
  | nil =>
    intro b
    rfl
  | cons a rest ih =>
    intro b
    rw [List.foldlM_cons, hc]
    exact ih (f b a)

theorem scanNetworkE_ok (st : MonitorState) (devices : List Device) (now : Nat) :
    scanNetworkE (fun _ => true) st devices now =
      Except.ok (scanNetwork st devices now) := by
  unfold scanNetworkE
  rw [foldlM_ok (processDeviceE (fun _ => true) st.lastScan now)
    (processDevice st.lastScan now) (processDeviceE_ok st.lastScan now)
    devices (initAcc st)]
  show (match (st.lastScan.foldlM (goneStepE (fun _ => true)
      ((devices.foldl (processDevice st.lastScan now) (initAcc st)).currentMacs) now)
      (devices.foldl (processDevice st.lastScan now) (initAcc st))) with
    | Except.error e => Except.error e
    | Except.ok acc2 =>
      Except.ok ({ db := acc2.db
                   hist := acc2.hist
                   scanLog := st.scanLog ++ [(devices.length, acc2.newCount, acc2.goneCount)]
                   lastScan := acc2.currentMacs
                   current := acc2.current }, acc2.changes)) =
    Except.ok (scanNetwork st devices now)
  rw [foldlM_ok (goneStepE (fun _ => true)
      ((devices.foldl (processDevice st.lastScan now) (initAcc st)).currentMacs) now)
    (goneStep ((devices.foldl (processDevice st.lastScan now) (initAcc st)).currentMacs) now)
    (goneStepE_ok _ now) st.lastScan
    (devices.foldl (processDevice st.lastScan now) (initAcc st))]
  rfl

theorem processDeviceE_fail_new (ls : List String) (now : Nat) (acc : CycleAcc)
    (d : Device) (h0 : d.mac ≠ "")
    (hdb : acc.db.lookup (strLower d.mac) = none) :
    processDeviceE (fun _ => false) ls now acc d = Except.error () := by
  have hu := upsert_of_none acc.db d now hdb
  have hex : getDevice acc.db (strLower d.mac) = none := by
    rw [getDevice_eq, strLower_idem, hdb]
  simp [processDeviceE, h0, hu, hex, logEventE]

/-- Claim C7 (amended): `log_event` performs a bare SQLite INSERT with
no handler and `scan_network` calls it unprotected, so a history-write
failure propagates out of the scan cycle, which then returns no Change
list; when every history write succeeds the cycle completes and
returns its Change list. -/
theorem claim7_theorem :
    (∀ (st : MonitorState) (devices : List Device) (now : Nat),
      scanNetworkE (fun _ => true) st devices now =
        Except.ok (scanNetwork st devices now)) ∧
    (∀ (st : MonitorState) (d : Device) (rest : List Device) (now : Nat),
      d.mac ≠ "" → getDevice st.db d.mac = none →
      scanNetworkE (fun _ => false) st (d :: rest) now = Except.error ()) := by
  constructor
  · exact scanNetworkE_ok
  · intro st d rest now h0 hdb
    have hdb' : (initAcc st).db.lookup (strLower d.mac) = none := hdb
    unfold scanNetworkE
    rw [List.foldlM_cons, processDeviceE_fail_new st.lastScan now (initAcc st) d h0 hdb']
    rfl

/-- Claim C7 counterexample: with the store's history INSERT failing, a
cycle that discovers one new device raises out of `scan_network` — the
cycle does not complete and returns no Change list, contradicting the
claim that an `append_history` failure never propagates out of the
cycle. -/
theorem claim7_counterexample :
    scanNetworkE (fun _ => false) stEmpty [devA] 0 = Except.error () ∧
    scanNetworkE (fun _ => true) stEmpty [devA] 0 =
      Except.ok (scanNetwork stEmpty [devA] 0) := by
  constructor
  · rfl
  · rfl

theorem claim7_witness :
    scanNetworkE (fun _ => false) stKnownFresh [devB] 3 = Except.error () ∧
    scanNetworkE (fun _ => true) stKnownFresh [devB] 3 =
      Except.ok (scanNetwork stKnownFresh [devB] 3) := by
  exact ⟨claim7_theorem.2 stKnownFresh devB [] 3 (by decide) (by decide),
    claim7_theorem.1 stKnownFresh [devB] 3⟩

/-! ### MAC lowercasing of the Device Store (C10) -/

theorem dbSet_keys (db : Db) (key : String) (r : DeviceRec) :
    (dbSet db key r).map Prod.fst = db.map Prod.fst := by
  unfold dbSet
  rw [List.map_map]
  apply List.map_congr_left
  intro p _
  show (if p.1 = key then (key, r) else p).1 = p.1
  by_cases hp : p.1 = key
  · rw [if_pos hp]
    exact hp.symm
  · rw [if_neg hp]

/-- Claim C10: every Device Store operation lowercases its MAC argument
before use (each behaves identically on `m` and on `m.lower()`), and
every key the store ever holds is lowercase. -/
theorem claim10_theorem :
    (∀ (db : Db) (m : String), getDevice db m = getDevice db (strLower m)) ∧
    (∀ (db : Db) (d : Device) (m : String) (now : Nat),
      upsertDevice db { d with mac := m } now =
        upsertDevice db { d with mac := strLower m } now) ∧
    (∀ (db : Db) (m : String) (b : Bool),
      markKnown db m b = markKnown db (strLower m) b) ∧
    (∀ (db : Db) (m : String) (b : Bool),
      markTrusted db m b = markTrusted db (strLower m) b) ∧
    (∀ (db : Db) (m name : String),
      setCustomName db m name = setCustomName db (strLower m) name) ∧
    (∀ (hist : List HistEvent) (m et ip details : String) (now : Nat),
      logEvent hist m et ip details now =
        logEvent hist (strLower m) et ip details now) ∧
    (∀ (hist : List HistEvent) (m : String) (limit : Nat),
      getDeviceHistory hist m limit = getDeviceHistory hist (strLower m) limit) ∧
    (∀ (db : Db) (d : Device) (now : Nat),
      (∀ k ∈ db.map Prod.fst, strLower k = k) →
      ∀ k ∈ ((upsertDevice db d now).1.map Prod.fst), strLower k = k) := by
  refine ⟨?_, ?_, ?_, ?_, ?_, ?_, ?_, ?_⟩
  · intro db m
    rw [getDevice_eq, getDevice_eq, strLower_idem]
  · intro db d m now
    simp [upsertDevice, getDevice_eq, strLower_idem, freshRec, updRec]
  · intro db m b
    simp [markKnown, strLower_idem]
  · intro db m b
    simp [markTrusted, strLower_idem]
  · intro db m name
    simp [setCustomName, strLower_idem]
  · intro hist m et ip details now
    simp [logEvent, strLower_idem]
  · intro hist m limit
    simp [getDeviceHistory, strLower_idem]
  · intro db d now hk k hkmem
    cases hdb : db.lookup (strLower d.mac) with
    | none =>
      rw [upsert_of_none db d now hdb] at hkmem
      rw [List.map_append, List.mem_append] at hkmem
      rcases hkmem with hkmem | hkmem
      · exact hk k hkmem
      · simp at hkmem
        rw [hkmem, strLower_idem]
    | some r =>
      rw [upsert_of_some db d now r hdb] at hkmem
      show strLower k = k
      rw [dbSet_keys] at hkmem
      exact hk k hkmem

theorem claim10_witness :
    getDevice stKnownFresh.db ("AA:BB:CC:DD:EE:01") =
      getDevice stKnownFresh.db (strLower ("AA:BB:CC:DD:EE:01")) ∧
    markKnown stKnownFresh.db ("AA:BB:CC:DD:EE:01") true =
      markKnown stKnownFresh.db (strLower ("AA:BB:CC:DD:EE:01")) true ∧
    (∀ k ∈ ((upsertDevice stKnownFresh.db devB 4).1.map Prod.fst),
      strLower k = k) := by
  refine ⟨claim10_theorem.1 stKnownFresh.db ("AA:BB:CC:DD:EE:01"),
    claim10_theorem.2.2.1 stKnownFresh.db ("AA:BB:CC:DD:EE:01") true,
    claim10_theorem.2.2.2.2.2.2.2 stKnownFresh.db devB 4 (by decide)⟩

/-! ### Monitor Loop stop semantics (C3) -/

/-- Claim C3 (amended): the stop flag is consulted only at the loop
head: the `stopped` state is entered only from the `check` phase, a
sleep in progress always runs one full tick at a time to its end
regardless of when `stop()` ran, and an in-flight cycle is likewise
never aborted. -/
theorem claim3_theorem (interval cyc stopT : Nat) (s : LoopState) (k : Nat) :
    ((loopStep interval cyc stopT s).phase = LoopPhase.stopped →
      s.phase = LoopPhase.check ∨ s.phase = LoopPhase.stopped) ∧
    (s.phase = LoopPhase.sleeping (k + 1) →
      loopStep interval cyc stopT s =
        { phase := LoopPhase.sleeping k, time := s.time + 1 }) ∧
    (s.phase = LoopPhase.cycling (k + 1) →
      loopStep interval cyc stopT s =
        { phase := LoopPhase.cycling k, time := s.time + 1 }) := by
  obtain ⟨ph, t⟩ := s
  refine ⟨?_, ?_, ?_⟩
  · intro h
    cases ph with
    | cycling j =>
      cases j with
      | zero => simp [loopStep] at h
      | succ j2 => simp [loopStep] at h
    | check => exact Or.inl rfl
    | sleeping j =>
      cases j with
      | zero => simp [loopStep] at h
      | succ j2 => simp [loopStep] at h
    | stopped => exact Or.inr rfl
  · intro h
    simp only at h
    rw [h]
    rfl
  · intro h
    simp only at h
    rw [h]
    rfl

/-- Claim C3 counterexample: interval 5, cycle length 1, `stop()` at
tick 2.  The sleep runs from tick 1 to tick 6 and the stop request
lands at tick 2, inside it; yet the loop is still sleeping at tick 4,
completes the whole 5-tick sleep, runs one further full cycle, and
only stops at tick 7 — the sleep is not interrupted and the loop waits
out the full configured interval (and more). -/
theorem claim3_counterexample :
    loopRun 5 1 2 3 = { phase := LoopPhase.sleeping 5, time := 1 } ∧
    loopRun 5 1 2 6 = { phase := LoopPhase.sleeping 2, time := 4 } ∧
    loopRun 5 1 2 8 = { phase := LoopPhase.sleeping 0, time := 6 } ∧
    loopRun 5 1 2 9 = { phase := LoopPhase.cycling 1, time := 6 } ∧
    loopRun 5 1 2 12 = { phase := LoopPhase.stopped, time := 7 } := by
  decide

theorem claim3_witness :
    (({ phase := LoopPhase.check, time := 7 } : LoopState).phase = LoopPhase.check ∨
      ({ phase := LoopPhase.check, time := 7 } : LoopState).phase = LoopPhase.stopped) ∧
    loopStep 5 1 2 { phase := LoopPhase.sleeping 3, time := 3 } =
      { phase := LoopPhase.sleeping 2, time := 4 } ∧
    loopStep 5 1 2 { phase := LoopPhase.cycling 1, time := 6 } =
      { phase := LoopPhase.cycling 0, time := 7 } := by
  refine ⟨?_, ?_, ?_⟩
  · exact (claim3_theorem 5 1 2 { phase := LoopPhase.check, time := 7 } 0).1 (by decide)
  · exact (claim3_theorem 5 1 2 { phase := LoopPhase.sleeping 3, time := 3 } 2).2.1 rfl
  · exact (claim3_theorem 5 1 2 { phase := LoopPhase.cycling 1, time := 6 } 0).2.2 rfl

end NetScan
